import Mathlib

/-!
Verification model of the Dynatrace MCP HTTP bridge (`src/server.js`).

The core of the program is a subprocess transport bridge: a readiness
detector over the child's stdout/stderr streams, and a request/response
correlator keyed by JSON-RPC ids over a shared stdio channel.  We embed
the mutable state of the bridge (`mcpProcess`, `mcpReady`, the
`pendingRequests` map, the init promise) as a Lean structure and each
asynchronous JavaScript callback (stdout `data`, stderr `data`, `close`,
`error`, the per-request 30 s timer, the 60 s init timer, `sendToMCP`
itself) as a step of a transition function on that structure.  Promise
settlements are recorded in an append-only log, one entry per
resolve/reject call the code performs, so "resolves exactly once" facts
become facts about the log.
-/

namespace Bridge

/-- JSON values, as produced by `JSON.parse` in the bridge. -/
inductive Json where
  | null : Json
  | bool (b : Bool) : Json
  | num (n : Int) : Json
  | str (s : String) : Json
  | arr (elems : List Json) : Json
  | obj (fields : List (String × Json)) : Json
  deriving Repr

mutual

/-- Structural equality of JSON values (JS `Map` keys use SameValueZero;
for the string/number ids this program uses that is structural equality). -/
def Json.beq : Json → Json → Bool
  | .null, .null => true
  | .bool a, .bool b => a == b
  | .num a, .num b => a == b
  | .str a, .str b => a == b
  | .arr xs, .arr ys => Json.beqList xs ys
  | .obj xs, .obj ys => Json.beqFields xs ys
  | _, _ => false

def Json.beqList : List Json → List Json → Bool
  | [], [] => true
  | x :: xs, y :: ys => Json.beq x y && Json.beqList xs ys
  | _, _ => false

def Json.beqFields : List (String × Json) → List (String × Json) → Bool
  | [], [] => true
  | (k, v) :: xs, (l, w) :: ys => k == l && Json.beq v w && Json.beqFields xs ys
  | _, _ => false

end

instance : BEq Json := ⟨Json.beq⟩

mutual

theorem Json.beq_refl : (j : Json) → Json.beq j j = true
  | .null => rfl
  | .bool b => by simp [Json.beq]
  | .num n => by simp [Json.beq]
  | .str s => by simp [Json.beq]
  | .arr xs => by simp [Json.beq, Json.beqList_refl xs]
  | .obj xs => by simp [Json.beq, Json.beqFields_refl xs]

theorem Json.beqList_refl : (xs : List Json) → Json.beqList xs xs = true
  | [] => rfl
  | x :: xs => by simp [Json.beqList, Json.beq_refl x, Json.beqList_refl xs]

theorem Json.beqFields_refl : (xs : List (String × Json)) → Json.beqFields xs xs = true
  | [] => rfl
  | (k, v) :: xs => by
      simp [Json.beqFields, Json.beq_refl v, Json.beqFields_refl xs]

end

mutual

theorem Json.eq_of_beq : {a b : Json} → Json.beq a b = true → a = b
  | .null, .null, _ => rfl
  | .bool _, .bool _, h => by simp [Json.beq] at h; simp [h]
  | .num _, .num _, h => by simp [Json.beq] at h; simp [h]
  | .str _, .str _, h => by simp [Json.beq] at h; simp [h]
  | .arr xs, .arr ys, h => by
      simp only [Json.beq] at h
      simp [Json.eqList_of_beq h]
  | .obj xs, .obj ys, h => by
      simp only [Json.beq] at h
      simp [Json.eqFields_of_beq h]
  | .null, .bool _, h => by simp [Json.beq] at h
  | .null, .num _, h => by simp [Json.beq] at h
  | .null, .str _, h => by simp [Json.beq] at h
  | .null, .arr _, h => by simp [Json.beq] at h
  | .null, .obj _, h => by simp [Json.beq] at h
  | .bool _, .null, h => by simp [Json.beq] at h
  | .bool _, .num _, h => by simp [Json.beq] at h
  | .bool _, .str _, h => by simp [Json.beq] at h
  | .bool _, .arr _, h => by simp [Json.beq] at h
  | .bool _, .obj _, h => by simp [Json.beq] at h
  | .num _, .null, h => by simp [Json.beq] at h
  | .num _, .bool _, h => by simp [Json.beq] at h
  | .num _, .str _, h => by simp [Json.beq] at h
  | .num _, .arr _, h => by simp [Json.beq] at h
  | .num _, .obj _, h => by simp [Json.beq] at h
  | .str _, .null, h => by simp [Json.beq] at h
  | .str _, .bool _, h => by simp [Json.beq] at h
  | .str _, .num _, h => by simp [Json.beq] at h
  | .str _, .arr _, h => by simp [Json.beq] at h
  | .str _, .obj _, h => by simp [Json.beq] at h
  | .arr _, .null, h => by simp [Json.beq] at h
  | .arr _, .bool _, h => by simp [Json.beq] at h
  | .arr _, .num _, h => by simp [Json.beq] at h
  | .arr _, .str _, h => by simp [Json.beq] at h
  | .arr _, .obj _, h => by simp [Json.beq] at h
  | .obj _, .null, h => by simp [Json.beq] at h
  | .obj _, .bool _, h => by simp [Json.beq] at h
  | .obj _, .num _, h => by simp [Json.beq] at h
  | .obj _, .str _, h => by simp [Json.beq] at h
  | .obj _, .arr _, h => by simp [Json.beq] at h

theorem Json.eqList_of_beq : {xs ys : List Json} → Json.beqList xs ys = true → xs = ys
  | [], [], _ => rfl
  | x :: xs, y :: ys, h => by
      simp only [Json.beqList, Bool.and_eq_true] at h
      have h1 := Json.eq_of_beq h.1
      have h2 := Json.eqList_of_beq h.2
      simp [h1, h2]
  | [], _ :: _, h => by simp [Json.beqList] at h
  | _ :: _, [], h => by simp [Json.beqList] at h

theorem Json.eqFields_of_beq :
    {xs ys : List (String × Json)} → Json.beqFields xs ys = true → xs = ys
  | [], [], _ => rfl
  | (k, v) :: xs, (l, w) :: ys, h => by
      simp only [Json.beqFields, Bool.and_eq_true] at h
      have h0 : k = l := by
        have := h.1.1
        simpa using this
      have h1 := Json.eq_of_beq h.1.2
      have h2 := Json.eqFields_of_beq h.2
      simp [h0, h1, h2]
  | [], _ :: _, h => by simp [Json.beqFields] at h
  | _ :: _, [], h => by simp [Json.beqFields] at h

end

instance : DecidableEq Json := fun a b =>
  if h : Json.beq a b = true then
    .isTrue (Json.eq_of_beq h)
  else
    .isFalse (fun he => h (he ▸ Json.beq_refl a))

instance : LawfulBEq Json where
  eq_of_beq := Json.eq_of_beq
  rfl := Json.beq_refl _

/-- JavaScript truthiness of a JSON value (`response.id && ...`,
`message.id || uuidv4()`).  An absent field is `undefined`, hence falsy;
that case is handled at the call sites via `Option`. -/
def truthy : Json → Bool
  | .null => false
  | .bool b => b
  | .num n => n != 0
  | .str s => s != ""
  | .arr _ => true
  | .obj _ => true

/-- Property lookup (`response.id`): `none` models `undefined`. -/
def getField (j : Json) (key : String) : Option Json :=
  match j with
  | .obj fields => (fields.find? (fun f => f.1 == key)).map (·.2)
  | _ => none

/-- Property assignment (`message.id = requestId`): replaces an existing
field in place, otherwise appends; a no-op on non-objects. -/
def setField (j : Json) (key : String) (v : Json) : Json :=
  match j with
  | .obj fields =>
      if fields.any (fun f => f.1 == key) then
        .obj (fields.map (fun f => if f.1 == key then (key, v) else f))
      else
        .obj (fields ++ [(key, v)])
  | other => other

/-! ### A model of `JSON.parse` on newline-delimited JSON-RPC text

The bridge calls the platform's `JSON.parse` on each candidate line and
treats a parse failure as "diagnostic text".  We model the parser on the
JSON subset the bridge's wire protocol uses (objects, arrays, strings
with simple escapes, integers, booleans, null); crucially it fails on
every truncated or malformed line, as `JSON.parse` does. -/

def quoteC : Char := Char.ofNat 34
def backslashC : Char := Char.ofNat 92
def lbraceC : Char := Char.ofNat 123
def rbraceC : Char := Char.ofNat 125
def lbrackC : Char := Char.ofNat 91
def rbrackC : Char := Char.ofNat 93

def isWsC (c : Char) : Bool :=
  c = ' ' || c = '\n' || c = '\t' || c = Char.ofNat 13

def skipWs : List Char → List Char
  | [] => []
  | c :: cs => if isWsC c then skipWs cs else c :: cs

/-- Parse the remainder of a JSON string literal (opening quote already
consumed), handling the `\"` and `\\` escapes. -/
def parseStrBody : List Char → Option (String × List Char)
  | [] => none
  | c :: cs =>
    if c = quoteC then some ("", cs)
    else if c = backslashC then
      match cs with
      | [] => none
      | e :: cs' =>
        if e = quoteC || e = backslashC then
          (parseStrBody cs').map (fun p => (String.mk (e :: p.1.toList), p.2))
        else none
    else (parseStrBody cs).map (fun p => (String.mk (c :: p.1.toList), p.2))

def natOfDigits (ds : List Char) : Nat :=
  ds.foldl (fun a c => a * 10 + (c.toNat - 48)) 0

def parseDigits (cs : List Char) : Option (Nat × List Char) :=
  let ds := cs.takeWhile Char.isDigit
  if ds.isEmpty then none
  else some (natOfDigits ds, cs.drop ds.length)

def parseNumTok (cs : List Char) : Option (Json × List Char) :=
  match cs with
  | '-' :: rest => (parseDigits rest).map (fun p => (.num (-(p.1 : Int)), p.2))
  | _ => (parseDigits cs).map (fun p => (.num (p.1 : Int), p.2))

mutual

def parseVal : Nat → List Char → Option (Json × List Char)
  | 0, _ => none
  | fuel + 1, cs =>
    match skipWs cs with
    | [] => none
    | c :: rest =>
      if c = quoteC then (parseStrBody rest).map (fun p => (.str p.1, p.2))
      else if c = lbraceC then
        (parseFields fuel (skipWs rest) true).map (fun p => (.obj p.1, p.2))
      else if c = lbrackC then
        (parseElems fuel (skipWs rest) true).map (fun p => (.arr p.1, p.2))
      else if ("true".toList).isPrefixOf (c :: rest) then
        some (.bool true, (c :: rest).drop 4)
      else if ("false".toList).isPrefixOf (c :: rest) then
        some (.bool false, (c :: rest).drop 5)
      else if ("null".toList).isPrefixOf (c :: rest) then
        some (.null, (c :: rest).drop 4)
      else parseNumTok (c :: rest)

/-- Fields of an object; `first` is true right after the opening brace. -/
def parseFields : Nat → List Char → Bool → Option (List (String × Json) × List Char)
  | 0, _, _ => none
  | fuel + 1, cs, first =>
    match cs with
    | [] => none
    | c :: rest =>
      if c = rbraceC && first then some ([], rest)
      else
        let cs' := if first then c :: rest else
          match c :: rest with
          | c' :: r' => if c' = ',' then skipWs r' else []
          | [] => []
        match cs' with
        | [] => none
        | k :: krest =>
          if k = quoteC then
            match parseStrBody krest with
            | none => none
            | some (key, afterKey) =>
              match skipWs afterKey with
              | ':' :: afterColon =>
                match parseVal fuel afterColon with
                | none => none
                | some (v, afterVal) =>
                  match skipWs afterVal with
                  | d :: drest =>
                    if d = rbraceC then some ([(key, v)], drest)
                    else
                      (parseFields fuel (d :: drest) false).map
                        (fun p => ((key, v) :: p.1, p.2))
                  | [] => none
              | _ => none
          else none

/-- Elements of an array; `first` is true right after the opening bracket. -/
def parseElems : Nat → List Char → Bool → Option (List Json × List Char)
  | 0, _, _ => none
  | fuel + 1, cs, first =>
    match cs with
    | [] => none
    | c :: rest =>
      if c = rbrackC && first then some ([], rest)
      else
        let cs' := if first then c :: rest else
          match c :: rest with
          | c' :: r' => if c' = ',' then c' :: r' else []
          | [] => []
        match cs' with
        | [] => none
        | d :: drest =>
          let body := if first then d :: drest else drest
          match parseVal fuel body with
          | none => none
          | some (v, afterVal) =>
            match skipWs afterVal with
            | e :: erest =>
              if e = rbrackC then some ([v], erest)
              else
                (parseElems fuel (e :: erest) false).map
                  (fun p => (v :: p.1, p.2))
            | [] => none

end

/-- `JSON.parse`: the whole string must be one JSON value (plus
whitespace), otherwise the parse throws — modelled as `none`. -/
def parseJson (s : String) : Option Json :=
  let cs := s.toList
  match parseVal (cs.length + 1) cs with
  | some (v, rest) => if (skipWs rest).isEmpty then some v else none
  | none => none

/-! ### JavaScript string helpers used by the handlers -/

/-- Does `needle` occur contiguously somewhere in `hay`? -/
def subSearch (needle : List Char) : List Char → Bool
  | [] => needle.isPrefixOf []
  | c :: rest => needle.isPrefixOf (c :: rest) || subSearch needle rest

/-- JS `String.prototype.includes` (substring containment). -/
def containsSub (hay needle : String) : Bool :=
  subSearch needle.toList hay.toList

/-- JS `String.prototype.split('\n')`: splits at every newline, keeping
empty pieces. -/
def splitNl : List Char → List (List Char)
  | [] => [[]]
  | c :: cs =>
      if c = '\n' then [] :: splitNl cs
      else
        match splitNl cs with
        | [] => [[c]]
        | l :: ls => (c :: l) :: ls

/-- JS `String.prototype.trim`: strip leading and trailing whitespace. -/
def trimChars (cs : List Char) : List Char :=
  ((cs.dropWhile isWsC).reverse.dropWhile isWsC).reverse

/-- `chunk.split('\n').filter(line => line.trim())` from the stdout
handler: the lines of a chunk whose trimmed text is truthy (nonempty). -/
def linesOf (chunk : String) : List String :=
  ((splitNl chunk.toList).map (fun l => String.mk l)).filter
    (fun l => !(trimChars l.toList).isEmpty)

/-! ### Bridge state and events

One `BridgeState` holds the module-level mutable variables of
`server.js` (`mcpProcess` non-nullness, `mcpReady`, `pendingRequests`,
`initBuffer`) together with verification ghosts: the outcome log (one
entry per resolve/reject call on a `sendToMCP` promise), the set of
still-scheduled per-request timers, the request id each timer closure
captured, the lines written to the child's stdin, and the settlement of
the `initMCP` promise.  Each JavaScript callback runs to completion
atomically on the event loop, so it is one step of `step`. -/

/-- Terminal outcome delivered to one `sendToMCP` promise. -/
inductive Outcome where
  | response (m : Json) : Outcome
  | timeoutErr : Outcome
  | processClosed : Outcome
  | notReady : Outcome
  | writeFailed : Outcome
  deriving DecidableEq, Repr

/-- Settlement of the promise returned by `initMCP`. -/
inductive InitResult where
  | ready : InitResult
  | timedOut : InitResult
  | procErr : InitResult
  deriving DecidableEq, Repr

structure BridgeState where
  /-- `mcpProcess !== null` (set at spawn, never nulled). -/
  procExists : Bool
  /-- the `mcpReady` flag. -/
  mcpReady : Bool
  /-- accumulation buffer used by the readiness check on stdout. -/
  initBuffer : String
  /-- `pendingRequests`: insertion-ordered map, wire id → request index. -/
  pending : List (Json × Nat)
  /-- ghost: wire id captured by each request's 30 s timer closure. -/
  sentIds : List (Nat × Json)
  /-- ghost: request timers scheduled and not yet fired. -/
  timers : List Nat
  /-- ghost: next request index (each `sendToMCP` call creates one promise). -/
  nextReq : Nat
  /-- ghost: resolve/reject calls performed on request promises, in order. -/
  log : List (Nat × Outcome)
  /-- ghost: messages written to the child's stdin. -/
  written : List Json
  /-- ghost: first settlement of the `initMCP` promise, if any. -/
  initOutcome : Option InitResult
  deriving DecidableEq, Repr

/-- A promise settles at most once: later resolve/reject calls are no-ops. -/
def settleInit (cur : Option InitResult) (r : InitResult) : Option InitResult :=
  match cur with
  | none => some r
  | some r0 => some r0

/-- `pendingRequests.get(k)` (`none` for a missing key). -/
def mapGet (m : List (Json × Nat)) (k : Json) : Option Nat :=
  (m.find? (fun e => e.1 == k)).map (·.2)

/-- `pendingRequests.set(k, v)`: replaces an existing entry in place
(insertion order kept), otherwise appends. -/
def mapSet (m : List (Json × Nat)) (k : Json) (v : Nat) : List (Json × Nat) :=
  if m.any (fun e => e.1 == k) then
    m.map (fun e => if e.1 == k then (k, v) else e)
  else m ++ [(k, v)]

/-- `pendingRequests.delete(k)`. -/
def mapDelete (m : List (Json × Nat)) (k : Json) : List (Json × Nat) :=
  m.filter (fun e => !(e.1 == k))

/-- ghost lookup: the wire id recorded for request `r`. -/
def lookupSent (s : List (Nat × Json)) (r : Nat) : Option Json :=
  (s.find? (fun e => e.1 == r)).map (·.2)

/-- One line of the response loop in the stdout handler
(`JSON.parse(line)`, then `response.id && pendingRequests.has(response.id)`,
delete, resolve). -/
def handleLine (s : BridgeState) (line : String) : BridgeState :=
  match parseJson line with
  | none => s
  | some resp =>
    match getField resp "id" with
    | none => s
    | some idv =>
      if truthy idv then
        match mapGet s.pending idv with
        | some r =>
          { s with pending := mapDelete s.pending idv
                   log := s.log ++ [(r, .response resp)] }
        | none => s
      else s

/-- The stdout `data` handler (`server.js` lines 50–81): readiness
sniffing on the accumulated buffer while not ready (an early `return`
skips the response loop when a marker is found), then the per-chunk
response loop. -/
def onStdout (s : BridgeState) (chunk : String) : BridgeState :=
  if !s.mcpReady then
    if containsSub (s.initBuffer ++ chunk) "Server ready" ||
       containsSub (s.initBuffer ++ chunk) "Dynatrace MCP Server running" ||
       containsSub chunk "\"method\":\"notifications/initialized\"" then
      { s with initBuffer := s.initBuffer ++ chunk
               mcpReady := true
               initOutcome := settleInit s.initOutcome .ready }
    else
      (linesOf chunk).foldl handleLine
        { s with initBuffer := s.initBuffer ++ chunk }
  else
    (linesOf chunk).foldl handleLine s

/-- The stderr `data` handler (lines 83–93): readiness sniffing on the
chunk only; stderr lines are never matched against pending requests. -/
def onStderr (s : BridgeState) (chunk : String) : BridgeState :=
  if !s.mcpReady &&
     (containsSub chunk "running on stdio" || containsSub chunk "Server ready") then
    { s with mcpReady := true, initOutcome := settleInit s.initOutcome .ready }
  else s

/-- The process `close` handler (lines 95–103): clears the ready flag,
rejects every pending request with "MCP process closed", empties the map. -/
def onClose (s : BridgeState) : BridgeState :=
  { s with mcpReady := false
           log := s.log ++ s.pending.map (fun e => (e.2, Outcome.processClosed))
           pending := [] }

/-- The process `error` handler (lines 105–109): clears the ready flag
and rejects the `initMCP` promise; pending requests are untouched. -/
def onProcError (s : BridgeState) : BridgeState :=
  { s with mcpReady := false, initOutcome := settleInit s.initOutcome .procErr }

/-- The 60 s readiness timer (lines 134–138). -/
def onInitTimer (s : BridgeState) : BridgeState :=
  if !s.mcpReady then
    { s with initOutcome := settleInit s.initOutcome .timedOut }
  else s

/-- The wire id `sendToMCP` uses: `message.id || uuidv4()`. -/
def requestIdOf (msg : Json) (fresh : String) : Json :=
  match getField msg "id" with
  | some v => if truthy v then v else .str fresh
  | none => .str fresh

/-- `sendToMCP(message)` (lines 143–161 plus scheduling of the 30 s
timer): the not-ready gate, registration in `pendingRequests`, the
stdin write (whose success is the `writeOk` parameter) with its catch
block, and the timer scheduling — which the code reaches even when the
write threw. -/
def sendToMCP (s : BridgeState) (msg : Json) (fresh : String) (writeOk : Bool) :
    BridgeState :=
  if !s.procExists || !s.mcpReady then
    { s with nextReq := s.nextReq + 1, log := s.log ++ [(s.nextReq, .notReady)] }
  else if writeOk then
    { s with pending := mapSet s.pending (requestIdOf msg fresh) s.nextReq
             sentIds := s.sentIds ++ [(s.nextReq, requestIdOf msg fresh)]
             nextReq := s.nextReq + 1
             written := s.written ++ [setField msg "id" (requestIdOf msg fresh)]
             timers := s.timers ++ [s.nextReq] }
  else
    { s with pending := mapDelete (mapSet s.pending (requestIdOf msg fresh) s.nextReq)
                          (requestIdOf msg fresh)
             sentIds := s.sentIds ++ [(s.nextReq, requestIdOf msg fresh)]
             nextReq := s.nextReq + 1
             log := s.log ++ [(s.nextReq, .writeFailed)]
             timers := s.timers ++ [s.nextReq] }

/-- The 30 s per-request timer of request `r` (lines 163–169): fires at
most once; the closure deletes and rejects whatever entry currently
sits under the wire id it captured. -/
def onReqTimer (s : BridgeState) (r : Nat) : BridgeState :=
  if s.timers.contains r then
    match lookupSent s.sentIds r with
    | none => { s with timers := s.timers.filter (fun t => !(t == r)) }
    | some rid =>
      if (mapGet s.pending rid).isSome then
        { s with timers := s.timers.filter (fun t => !(t == r))
                 pending := mapDelete s.pending rid
                 log := s.log ++ [(r, .timeoutErr)] }
      else { s with timers := s.timers.filter (fun t => !(t == r)) }
  else s

/-- The JSON-RPC handshake message built by the 1 s timer (lines 112–131). -/
def handshakeMsg (fresh : String) : Json :=
  .obj [("jsonrpc", .str "2.0"),
        ("id", .str fresh),
        ("method", .str "initialize"),
        ("params", .obj
          [("protocolVersion", .str "2024-11-05"),
           ("capabilities", .obj [("tools", .obj [])]),
           ("clientInfo", .obj
             [("name", .str "dynatrace-http-bridge"),
              ("version", .str "1.0.0")])])]

/-- The 1 s handshake timer: writes the initialize request,
fire-and-forget (never registered in `pendingRequests`). -/
def onHandshakeTimer (s : BridgeState) (fresh : String) : BridgeState :=
  if s.procExists then { s with written := s.written ++ [handshakeMsg fresh] }
  else s

/-- The asynchronous events the bridge observes. -/
inductive Event where
  | stdoutData (chunk : String) : Event
  | stderrData (chunk : String) : Event
  | send (msg : Json) (fresh : String) (writeOk : Bool) : Event
  | reqTimer (r : Nat) : Event
  | procClose : Event
  | procError : Event
  | initTimer : Event
  | handshakeTimer (fresh : String) : Event
  deriving DecidableEq, Repr

def step (s : BridgeState) : Event → BridgeState
  | .stdoutData c => onStdout s c
  | .stderrData c => onStderr s c
  | .send m f w => sendToMCP s m f w
  | .reqTimer r => onReqTimer s r
  | .procClose => onClose s
  | .procError => onProcError s
  | .initTimer => onInitTimer s
  | .handshakeTimer f => onHandshakeTimer s f

def runEvents (s : BridgeState) (es : List Event) : BridgeState :=
  es.foldl step s

/-- State right after a successful spawn inside `initMCP`. -/
def spawnedState : BridgeState :=
  { procExists := true, mcpReady := false, initBuffer := ""
    pending := [], sentIds := [], timers := [], nextReq := 0
    log := [], written := [], initOutcome := none }

/-- JS truthiness of an environment variable (`undefined` and the empty
string are falsy). -/
def envTruthy : Option String → Bool
  | none => false
  | some s => s != ""

/-- `initMCP` models `initializeMCP` (lines 25–46) up to the spawn: the
required-variable validation runs first, and only when it passes is the
child spawned (yielding `spawnedState`). -/
def initMCP (dtPlatformToken dtEnvironment : Option String) :
    Except String BridgeState :=
  if !(envTruthy dtPlatformToken) || !(envTruthy dtEnvironment) then
    .error "DT_PLATFORM_TOKEN and DT_ENVIRONMENT are required"
  else
    .ok spawnedState

/-- All resolve/reject calls delivered to request `r`'s promise. -/
def outcomesFor (s : BridgeState) (r : Nat) : List Outcome :=
  (s.log.filter (fun e => e.1 == r)).map (·.2)

/-- Request `r` was registered (passed the ready gate of `sendToMCP`). -/
def registered (s : BridgeState) (r : Nat) : Bool :=
  (lookupSent s.sentIds r).isSome

/-! ### Basic lemmas about the map and ghost operations -/

theorem mapGet_cons (p : Json × Nat) (m : List (Json × Nat)) (k : Json) :
    mapGet (p :: m) k = if p.1 = k then some p.2 else mapGet m k := by
  unfold mapGet
  rw [List.find?]
  by_cases h : p.1 = k
  · simp [h]
  · have hb : (p.1 == k) = false := by simp [h]
    simp [hb, h]

theorem mapDelete_cons (p : Json × Nat) (m : List (Json × Nat)) (k : Json) :
    mapDelete (p :: m) k =
      if p.1 = k then mapDelete m k else p :: mapDelete m k := by
  unfold mapDelete
  by_cases h : p.1 = k <;> simp [List.filter_cons, h]

theorem lookupSent_cons (p : Nat × Json) (s : List (Nat × Json)) (r : Nat) :
    lookupSent (p :: s) r = if p.1 = r then some p.2 else lookupSent s r := by
  unfold lookupSent
  rw [List.find?]
  by_cases h : p.1 = r
  · simp [h]
  · have hb : (p.1 == r) = false := by simp [h]
    simp [hb, h]

theorem mapGet_delete_self (m : List (Json × Nat)) (k : Json) :
    mapGet (mapDelete m k) k = none := by
  induction m with
  | nil => rfl
  | cons p m ih =>
      rw [mapDelete_cons]
      by_cases h : p.1 = k
      · simpa [h] using ih
      · rw [if_neg h, mapGet_cons, if_neg h]
        exact ih

theorem mapGet_delete_ne (m : List (Json × Nat)) (k j : Json) (h : j ≠ k) :
    mapGet (mapDelete m k) j = mapGet m j := by
  induction m with
  | nil => rfl
  | cons p m ih =>
      rw [mapDelete_cons]
      by_cases hk : p.1 = k
      · rw [if_pos hk, mapGet_cons, if_neg (by rw [hk]; exact fun he => h he.symm)]
        exact ih
      · rw [if_neg hk, mapGet_cons, mapGet_cons]
        by_cases hj : p.1 = j
        · simp [hj]
        · rw [if_neg hj, if_neg hj]; exact ih

theorem mapGet_append_of_none (m : List (Json × Nat)) (l : List (Json × Nat))
    (k : Json) (h : mapGet m k = none) :
    mapGet (m ++ l) k = mapGet l k := by
  induction m with
  | nil => simp
  | cons p m ih =>
      rw [mapGet_cons] at h
      by_cases hk : p.1 = k
      · rw [if_pos hk] at h; exact absurd h (by simp)
      · rw [if_neg hk] at h
        rw [List.cons_append, mapGet_cons, if_neg hk]
        exact ih h

theorem mapGet_append_of_some (m : List (Json × Nat)) (l : List (Json × Nat))
    (k : Json) (r : Nat) (h : mapGet m k = some r) :
    mapGet (m ++ l) k = some r := by
  induction m with
  | nil => simp [mapGet] at h
  | cons p m ih =>
      rw [mapGet_cons] at h
      rw [List.cons_append, mapGet_cons]
      by_cases hk : p.1 = k
      · rw [if_pos hk] at h ⊢; exact h
      · rw [if_neg hk] at h ⊢; exact ih h

theorem mapSet_of_not_mem (m : List (Json × Nat)) (k : Json) (v : Nat)
    (h : mapGet m k = none) : mapSet m k v = m ++ [(k, v)] := by
  unfold mapSet
  have hany : m.any (fun e => e.1 == k) = false := by
    induction m with
    | nil => rfl
    | cons p m ih =>
        rw [mapGet_cons] at h
        by_cases hk : p.1 = k
        · rw [if_pos hk] at h; exact absurd h (by simp)
        · rw [if_neg hk] at h
          have hb : (p.1 == k) = false := by simp [hk]
          simp [List.any, hb, ih h]
  simp [hany]

theorem mapGet_eq_none_of_not_mem_keys (m : List (Json × Nat)) (k : Json)
    (h : k ∉ m.map (·.1)) : mapGet m k = none := by
  induction m with
  | nil => rfl
  | cons p m ih =>
      simp only [List.map_cons, List.mem_cons, not_or] at h
      rw [mapGet_cons, if_neg (fun he => h.1 he.symm)]
      exact ih h.2

theorem mem_of_mapGet_eq_some (m : List (Json × Nat)) (k : Json) (r : Nat)
    (h : mapGet m k = some r) : (k, r) ∈ m := by
  induction m with
  | nil => simp [mapGet] at h
  | cons p m ih =>
      rw [mapGet_cons] at h
      by_cases hk : p.1 = k
      · rw [if_pos hk] at h
        have hp : p = (k, r) := by
          cases p with
          | mk a b =>
              simp only [Option.some.injEq] at h
              simp_all
        exact hp ▸ List.mem_cons_self _ _
      · rw [if_neg hk] at h
        exact List.mem_cons_of_mem _ (ih h)

theorem mapGet_of_mem_nodup (m : List (Json × Nat)) (k : Json) (r : Nat)
    (hmem : (k, r) ∈ m) (hnd : (m.map (·.1)).Nodup) : mapGet m k = some r := by
  induction m with
  | nil => simp at hmem
  | cons p m ih =>
      simp only [List.map_cons, List.nodup_cons] at hnd
      rw [mapGet_cons]
      rcases List.mem_cons.mp hmem with h | h
      · subst h; simp
      · have hk : p.1 ≠ k := by
          intro he
          exact hnd.1 (he ▸ (List.mem_map.mpr ⟨(k, r), h, rfl⟩))
        rw [if_neg hk]
        exact ih h hnd.2

theorem mapDelete_keys_sublist (m : List (Json × Nat)) (k : Json) :
    List.Sublist ((mapDelete m k).map (·.1)) (m.map (·.1)) :=
  List.Sublist.map _ (List.filter_sublist m)

theorem lookupSent_append_old (s : List (Nat × Json)) (l : List (Nat × Json))
    (r : Nat) (j : Json) (h : lookupSent s r = some j) :
    lookupSent (s ++ l) r = some j := by
  induction s with
  | nil => simp [lookupSent] at h
  | cons p s ih =>
      rw [lookupSent_cons] at h
      rw [List.cons_append, lookupSent_cons]
      by_cases hk : p.1 = r
      · rw [if_pos hk] at h ⊢; exact h
      · rw [if_neg hk] at h ⊢; exact ih h

theorem lookupSent_append_new (s : List (Nat × Json)) (r : Nat) (j : Json)
    (h : lookupSent s r = none) :
    lookupSent (s ++ [(r, j)]) r = some j := by
  induction s with
  | nil => simp [lookupSent, List.find?]
  | cons p s ih =>
      rw [lookupSent_cons] at h
      rw [List.cons_append, lookupSent_cons]
      by_cases hk : p.1 = r
      · rw [if_pos hk] at h; exact absurd h (by simp)
      · rw [if_neg hk] at h ⊢; exact ih h

theorem lookupSent_eq_none_of_not_mem (s : List (Nat × Json)) (r : Nat)
    (h : r ∉ s.map (·.1)) : lookupSent s r = none := by
  induction s with
  | nil => rfl
  | cons p s ih =>
      simp only [List.map_cons, List.mem_cons, not_or] at h
      rw [lookupSent_cons, if_neg (fun he => h.1 he.symm)]
      exact ih h.2

theorem mem_of_lookupSent_eq_some (s : List (Nat × Json)) (r : Nat) (j : Json)
    (h : lookupSent s r = some j) : (r, j) ∈ s := by
  induction s with
  | nil => simp [lookupSent] at h
  | cons p s ih =>
      rw [lookupSent_cons] at h
      by_cases hk : p.1 = r
      · rw [if_pos hk] at h
        have hp : p = (r, j) := by
          cases p with
          | mk a b =>
              simp only [Option.some.injEq] at h
              simp_all
        exact hp ▸ List.mem_cons_self _ _
      · rw [if_neg hk] at h
        exact List.mem_cons_of_mem _ (ih h)

/-- With pairwise-distinct recorded wire ids, a wire id determines the
request that sent it. -/
theorem lookupSent_inj (s : List (Nat × Json)) (r r' : Nat) (j : Json)
    (hnd : (s.map (·.2)).Nodup)
    (h : lookupSent s r = some j) (h' : lookupSent s r' = some j) : r = r' := by
  induction s with
  | nil => simp [lookupSent] at h
  | cons p s ih =>
      simp only [List.map_cons, List.nodup_cons] at hnd
      rw [lookupSent_cons] at h h'
      by_cases hk : p.1 = r
      · rw [if_pos hk] at h
        by_cases hk' : p.1 = r'
        · rw [← hk, hk']
        · rw [if_neg hk'] at h'
          have hj : p.2 = j := by injection h
          exact absurd (List.mem_map.mpr
            ⟨(r', j), mem_of_lookupSent_eq_some _ _ _ h', hj.symm⟩) hnd.1
      · rw [if_neg hk] at h
        by_cases hk' : p.1 = r'
        · rw [if_pos hk'] at h'
          have hj : p.2 = j := by injection h'
          exact absurd (List.mem_map.mpr
            ⟨(r, j), mem_of_lookupSent_eq_some _ _ _ h, hj.symm⟩) hnd.1
        · rw [if_neg hk'] at h'
          exact ih hnd.2 h h'

/-! ### Which fields each handler can touch -/

theorem handleLine_ghost (s : BridgeState) (l : String) :
    (handleLine s l).mcpReady = s.mcpReady ∧
    (handleLine s l).procExists = s.procExists ∧
    (handleLine s l).initOutcome = s.initOutcome ∧
    (handleLine s l).sentIds = s.sentIds ∧
    (handleLine s l).timers = s.timers ∧
    (handleLine s l).nextReq = s.nextReq ∧
    (handleLine s l).initBuffer = s.initBuffer ∧
    (handleLine s l).written = s.written := by
  unfold handleLine
  cases hp : parseJson l with
  | none => simp
  | some resp =>
    cases hg : getField resp "id" with
    | none => simp [hg]
    | some idv =>
      cases ht : truthy idv with
      | false => simp [hg, ht]
      | true =>
        cases hm : mapGet s.pending idv with
        | none => simp [hg, ht, hm]
        | some r => simp [hg, ht, hm]

theorem handleLine_ready (s : BridgeState) (l : String) :
    (handleLine s l).mcpReady = s.mcpReady := (handleLine_ghost s l).1

theorem handleLine_initOutcome (s : BridgeState) (l : String) :
    (handleLine s l).initOutcome = s.initOutcome := (handleLine_ghost s l).2.2.1

theorem handleLine_sentIds (s : BridgeState) (l : String) :
    (handleLine s l).sentIds = s.sentIds := (handleLine_ghost s l).2.2.2.1

theorem handleLine_timers (s : BridgeState) (l : String) :
    (handleLine s l).timers = s.timers := (handleLine_ghost s l).2.2.2.2.1

theorem handleLine_nextReq (s : BridgeState) (l : String) :
    (handleLine s l).nextReq = s.nextReq := (handleLine_ghost s l).2.2.2.2.2.1

theorem foldlHandleLine_ready (ls : List String) (s : BridgeState) :
    (ls.foldl handleLine s).mcpReady = s.mcpReady := by
  induction ls generalizing s with
  | nil => rfl
  | cons l ls ih => rw [List.foldl_cons, ih, handleLine_ready]

theorem foldlHandleLine_initOutcome (ls : List String) (s : BridgeState) :
    (ls.foldl handleLine s).initOutcome = s.initOutcome := by
  induction ls generalizing s with
  | nil => rfl
  | cons l ls ih => rw [List.foldl_cons, ih, handleLine_initOutcome]

theorem foldlHandleLine_sentIds (ls : List String) (s : BridgeState) :
    (ls.foldl handleLine s).sentIds = s.sentIds := by
  induction ls generalizing s with
  | nil => rfl
  | cons l ls ih => rw [List.foldl_cons, ih, handleLine_sentIds]

theorem foldlHandleLine_timers (ls : List String) (s : BridgeState) :
    (ls.foldl handleLine s).timers = s.timers := by
  induction ls generalizing s with
  | nil => rfl
  | cons l ls ih => rw [List.foldl_cons, ih, handleLine_timers]

theorem foldlHandleLine_nextReq (ls : List String) (s : BridgeState) :
    (ls.foldl handleLine s).nextReq = s.nextReq := by
  induction ls generalizing s with
  | nil => rfl
  | cons l ls ih => rw [List.foldl_cons, ih, handleLine_nextReq]

/-- In steady state (`mcpReady`), the stdout handler is exactly the
per-chunk response loop. -/
theorem onStdout_of_ready (s : BridgeState) (c : String) (h : s.mcpReady = true) :
    onStdout s c = (linesOf c).foldl handleLine s := by
  unfold onStdout
  simp [h]

theorem onStderr_of_ready (s : BridgeState) (c : String) (h : s.mcpReady = true) :
    onStderr s c = s := by
  unfold onStderr
  simp [h]

theorem settleInit_some (r0 r : InitResult) : settleInit (some r0) r = some r0 := rfl

theorem onStdout_initOutcome_of_some (s : BridgeState) (c : String) (r : InitResult)
    (h : s.initOutcome = some r) : (onStdout s c).initOutcome = some r := by
  unfold onStdout
  by_cases hr : s.mcpReady
  · simp only [hr]
    simpa [foldlHandleLine_initOutcome] using h
  · simp only [Bool.not_eq_true] at hr
    simp only [hr]
    by_cases hm : (containsSub (s.initBuffer ++ c) "Server ready" ||
        containsSub (s.initBuffer ++ c) "Dynatrace MCP Server running" ||
        containsSub c "\"method\":\"notifications/initialized\"") = true
    · simp [hm, h, settleInit_some]
    · simp only [Bool.not_eq_true] at hm
      simp [hm, foldlHandleLine_initOutcome, h]

theorem step_initOutcome_of_some (s : BridgeState) (e : Event) (r : InitResult)
    (h : s.initOutcome = some r) : (step s e).initOutcome = some r := by
  cases e with
  | stdoutData c =>
      simp only [step]
      exact onStdout_initOutcome_of_some s c r h
  | stderrData c =>
      simp only [step]
      unfold onStderr
      by_cases hc : (!s.mcpReady &&
          (containsSub c "running on stdio" || containsSub c "Server ready")) = true
      · simp [hc, h, settleInit_some]
      · simp only [Bool.not_eq_true] at hc
        simp [hc, h]
  | send m f w =>
      simp only [step]
      unfold sendToMCP
      by_cases hg : (!s.procExists || !s.mcpReady) = true
      · simp [hg, h]
      · simp only [Bool.not_eq_true] at hg
        by_cases hw : w <;> simp [hg, hw, h]
  | reqTimer t =>
      simp only [step]
      unfold onReqTimer
      split
      · split
        · simpa using h
        · split
          · simpa using h
          · simpa using h
      · exact h
  | procClose =>
      simp only [step]
      simp [onClose, h]
  | procError =>
      simp only [step]
      unfold onProcError
      simp [h, settleInit_some]
  | initTimer =>
      simp only [step]
      unfold onInitTimer
      by_cases hr : s.mcpReady <;> simp [hr, h, settleInit_some]
  | handshakeTimer f =>
      simp only [step]
      unfold onHandshakeTimer
      by_cases hp : s.procExists <;> simp [hp, h]

theorem runEvents_initOutcome_of_some (s : BridgeState) (es : List Event)
    (r : InitResult) (h : s.initOutcome = some r) :
    (runEvents s es).initOutcome = some r := by
  induction es generalizing s with
  | nil => exact h
  | cons e es ih => exact ih (step s e) (step_initOutcome_of_some s e r h)

/-! ### Error-outcome bookkeeping for the cancellation claims -/

/-- Outcomes that fail a request (everything except a response). -/
def isErrOutcome : Outcome → Bool
  | .response _ => false
  | _ => true

/-- The failure entries of the outcome log. -/
def errLog (s : BridgeState) : List (Nat × Outcome) :=
  s.log.filter (fun p => isErrOutcome p.2)

theorem handleLine_errLog (s : BridgeState) (l : String) :
    errLog (handleLine s l) = errLog s := by
  unfold handleLine
  cases hp : parseJson l with
  | none => rfl
  | some resp =>
    cases hg : getField resp "id" with
    | none => simp [hg]
    | some idv =>
      cases ht : truthy idv with
      | false => simp [hg, ht]
      | true =>
        cases hm : mapGet s.pending idv with
        | none => simp [hg, ht, hm]
        | some r => simp [hg, ht, hm, errLog, List.filter_append, isErrOutcome]

theorem foldlHandleLine_errLog (ls : List String) (s : BridgeState) :
    errLog (ls.foldl handleLine s) = errLog s := by
  induction ls generalizing s with
  | nil => rfl
  | cons l ls ih => rw [List.foldl_cons, ih, handleLine_errLog]

theorem onStdout_errLog (s : BridgeState) (c : String) :
    errLog (onStdout s c) = errLog s := by
  unfold onStdout
  cases hr : s.mcpReady with
  | true =>
      simp only [hr, Bool.not_true]
      rw [if_neg (by simp)]
      exact foldlHandleLine_errLog _ _
  | false =>
      simp only [hr, Bool.not_false, if_pos]
      by_cases hm : (containsSub (s.initBuffer ++ c) "Server ready" ||
          containsSub (s.initBuffer ++ c) "Dynatrace MCP Server running" ||
          containsSub c "\"method\":\"notifications/initialized\"") = true
      · simp [hm, errLog]
      · simp only [Bool.not_eq_true] at hm
        simp only [hm, Bool.false_eq_true, if_neg, not_false_iff]
        rw [foldlHandleLine_errLog]
        simp [errLog]

/-! ### C9, C8, C4, C5, C6 -/

/-- C9 (confirmed): if either required environment value
(`DT_PLATFORM_TOKEN` or `DT_ENVIRONMENT`) is missing — absent or empty,
hence falsy — startup fails with the spawn error, and the validation
short-circuits `initMCP` before the spawn: no `BridgeState` with a
child process is produced. -/
theorem C9_env_validation_before_spawn (tok envv : Option String)
    (h : envTruthy tok = false ∨ envTruthy envv = false) :
    initMCP tok envv =
      Except.error "DT_PLATFORM_TOKEN and DT_ENVIRONMENT are required" := by
  unfold initMCP
  rcases h with h | h <;> simp [h]

theorem C9_witness :
    initMCP none (some "https://abc12345.apps.dynatrace.com") =
      Except.error "DT_PLATFORM_TOKEN and DT_ENVIRONMENT are required" :=
  C9_env_validation_before_spawn none (some "https://abc12345.apps.dynatrace.com")
    (Or.inl rfl)

/-- C8 (confirmed): a `sendToMCP` call made while the process handle is
absent or the bridge is not ready rejects with the not-ready error, and
neither writes to the child's stdin nor registers a `PendingRequest`
(pending map, written list, ghost registration and timers unchanged). -/
theorem C8_not_ready_gate (s : BridgeState) (msg : Json) (fresh : String)
    (w : Bool) (h : s.procExists = false ∨ s.mcpReady = false) :
    (sendToMCP s msg fresh w).log = s.log ++ [(s.nextReq, Outcome.notReady)] ∧
    (sendToMCP s msg fresh w).pending = s.pending ∧
    (sendToMCP s msg fresh w).written = s.written ∧
    (sendToMCP s msg fresh w).sentIds = s.sentIds ∧
    (sendToMCP s msg fresh w).timers = s.timers := by
  unfold sendToMCP
  rcases h with h | h <;> simp [h]

theorem C8_witness :
    (sendToMCP spawnedState (Json.obj []) "uuid-1" true).log =
        spawnedState.log ++ [(spawnedState.nextReq, Outcome.notReady)] ∧
    (sendToMCP spawnedState (Json.obj []) "uuid-1" true).pending = spawnedState.pending ∧
    (sendToMCP spawnedState (Json.obj []) "uuid-1" true).written = spawnedState.written ∧
    (sendToMCP spawnedState (Json.obj []) "uuid-1" true).sentIds = spawnedState.sentIds ∧
    (sendToMCP spawnedState (Json.obj []) "uuid-1" true).timers = spawnedState.timers :=
  C8_not_ready_gate spawnedState (Json.obj []) "uuid-1" true (Or.inr rfl)

/-- A ready steady-state bridge (used by concrete scenarios). -/
def readyBridge : BridgeState := { spawnedState with mcpReady := true }

/-- C4 (corrected): stream data events never lower the readiness flag —
once ready, stdout and stderr chunks keep it ready — but, contrary to
the claim, the process `close` handler and the process `error` handler
do reset it to not-ready (`mcpReady = false`, `server.js` lines 97 and
107). -/
theorem C4_ready_flag_one_way_for_data_events (s : BridgeState) (c c' : String)
    (h : s.mcpReady = true) :
    (onStdout s c).mcpReady = true ∧ (onStderr s c').mcpReady = true ∧
    (onClose s).mcpReady = false ∧ (onProcError s).mcpReady = false := by
  refine ⟨?_, ?_, rfl, rfl⟩
  · rw [onStdout_of_ready s c h, foldlHandleLine_ready]
    exact h
  · rw [onStderr_of_ready s c' h]
    exact h

theorem C4_witness :
    (onStdout readyBridge "chunk").mcpReady = true ∧
    (onStderr readyBridge "chunk2").mcpReady = true ∧
    (onClose readyBridge).mcpReady = false ∧
    (onProcError readyBridge).mcpReady = false :=
  C4_ready_flag_one_way_for_data_events readyBridge "chunk" "chunk2" rfl

/-- C4 counterexample: the claim says no process-exit event resets the
flag; but from a ready state the `close` event sets `mcpReady = false`. -/
theorem C4_counterexample :
    readyBridge.mcpReady = true ∧
    (step readyBridge Event.procClose).mcpReady = false :=
  ⟨rfl, rfl⟩

/-- The init promise has settled with a failure (timeout from the 60 s
timer, or a process `error`). -/
def initFailed (s : BridgeState) : Prop :=
  s.initOutcome = some InitResult.timedOut ∨
  s.initOutcome = some InitResult.procErr

/-- Program-realizable traces.  `startServer` awaits `initMCP`
(`server.js` line 375); when the init promise is rejected, the awaiting
continuation runs as a microtask — before any queued stream-data or
timer macrotask — and its catch block calls `process.exit(1)` (lines
384–387).  So once the init promise has settled with a failure the
process is gone and no further event is ever handled: a realizable
trace has no event after a failed-init state. -/
def Realizable : BridgeState → List Event → Prop
  | _, [] => True
  | s, e :: es => ¬ initFailed s ∧ Realizable (step s e) es

/-- C5 (confirmed): the Failed state of the readiness machine is
terminal.  If the 60 s timer fires before any qualifying signal — the
bridge is not ready and the initialization future is rejected with the
timeout error — then in every program-realizable execution not a single
further event is processed (`process.exit(1)` runs on the rejection's
microtask), so no readiness marker or initialized-notification arriving
later on either stream can transition the bridge to Ready: the flag
stays not-ready and the future stays rejected. -/
theorem C5_failed_state_terminal (s : BridgeState) (es : List Event)
    (hfail : s.initOutcome = some InitResult.timedOut)
    (hready : s.mcpReady = false)
    (hreal : Realizable s es) :
    es = [] ∧
    (runEvents s es).mcpReady = false ∧
    (runEvents s es).initOutcome = some InitResult.timedOut := by
  cases es with
  | nil => exact ⟨rfl, hready, hfail⟩
  | cons e es => exact absurd (Or.inl hfail) hreal.1

theorem C5_witness :
    ([] : List Event) = [] ∧
    (runEvents (onInitTimer spawnedState) []).mcpReady = false ∧
    (runEvents (onInitTimer spawnedState) []).initOutcome =
      some InitResult.timedOut :=
  C5_failed_state_terminal (onInitTimer spawnedState) [] rfl rfl trivial

/-- C6 (confirmed): when the child process closes with K requests
pending, the `close` handler rejects all K of them with the
process-closed error (one log entry per pending entry, in map order)
and leaves the mapping empty; and it is the only bulk-cancellation
path — every other event appends at most one failure outcome to the
log. -/
theorem C6_close_rejects_all_pending (s : BridgeState) (e : Event)
    (he : e ≠ Event.procClose) :
    (onClose s).pending = [] ∧
    (onClose s).log =
      s.log ++ s.pending.map (fun p => (p.2, Outcome.processClosed)) ∧
    (errLog (step s e)).length ≤ (errLog s).length + 1 := by
  refine ⟨rfl, rfl, ?_⟩
  cases e with
  | stdoutData c =>
      simp only [step]
      rw [onStdout_errLog]
      exact Nat.le_succ _
  | stderrData c =>
      simp only [step]
      unfold onStderr
      by_cases hc : (!s.mcpReady &&
          (containsSub c "running on stdio" || containsSub c "Server ready")) = true
      · simp only [hc, if_pos]
        simp [errLog, Nat.le_succ]
      · simp only [Bool.not_eq_true] at hc
        simp [hc, Nat.le_succ]
  | send m f w =>
      simp only [step]
      unfold sendToMCP
      by_cases hg : (!s.procExists || !s.mcpReady) = true
      · simp [hg, errLog, List.filter_append, isErrOutcome]
      · simp only [Bool.not_eq_true] at hg
        cases hw : w with
        | true => simp [hg, errLog, Nat.le_succ]
        | false => simp [hg, errLog, List.filter_append, isErrOutcome]
  | reqTimer t =>
      simp only [step]
      unfold onReqTimer
      split
      · split
        · simp [errLog, Nat.le_succ]
        · split
          · simp [errLog, List.filter_append, isErrOutcome]
          · simp [errLog, Nat.le_succ]
      · exact Nat.le_succ _
  | procClose => exact absurd rfl he
  | procError =>
      simp only [step]
      simp [onProcError, errLog, Nat.le_succ]
  | initTimer =>
      simp only [step]
      unfold onInitTimer
      split <;> simp [errLog, Nat.le_succ]
  | handshakeTimer f =>
      simp only [step]
      unfold onHandshakeTimer
      split <;> simp [errLog, Nat.le_succ]

theorem C6_witness :
    (onClose readyBridge).pending = [] ∧
    (onClose readyBridge).log =
      readyBridge.log ++
        readyBridge.pending.map (fun p => (p.2, Outcome.processClosed)) ∧
    (errLog (step readyBridge Event.initTimer)).length ≤
      (errLog readyBridge).length + 1 :=
  C6_close_rejects_all_pending readyBridge Event.initTimer (by decide)

/-! ### Lemmas about `mapSet`, and claim C10 -/

theorem mapGet_eq_none_of_any_false (m : List (Json × Nat)) (k : Json)
    (h : m.any (fun e => e.1 == k) = false) : mapGet m k = none := by
  induction m with
  | nil => rfl
  | cons p m ih =>
      simp only [List.any_cons, Bool.or_eq_false_iff] at h
      rw [mapGet_cons, if_neg (by simpa using h.1)]
      exact ih h.2

theorem mapGet_set_self (m : List (Json × Nat)) (k : Json) (v : Nat) :
    mapGet (mapSet m k v) k = some v := by
  induction m with
  | nil => simp [mapSet, mapGet, List.find?]
  | cons p m ih =>
      unfold mapSet
      by_cases hp : p.1 = k
      · rw [if_pos (by simp [List.any_cons, hp])]
        rw [List.map_cons, if_pos (by simp [hp])]
        rw [mapGet_cons]
        simp
      · cases hany : m.any (fun e => e.1 == k) with
        | true =>
            rw [if_pos (by simp [List.any_cons, hany])]
            rw [List.map_cons, if_neg (by simpa using hp)]
            rw [mapGet_cons, if_neg hp]
            have hm := ih
            unfold mapSet at hm
            rwa [if_pos hany] at hm
        | false =>
            rw [if_neg (by simp [List.any_cons, hp, hany])]
            rw [List.cons_append, mapGet_cons, if_neg hp]
            rw [mapGet_append_of_none m _ k (mapGet_eq_none_of_any_false m k hany)]
            simp [mapGet, List.find?]

/-- Overwriting the entry under `k` removes its old value from the map's
values, provided values are pairwise distinct and the new value differs. -/
theorem mapSet_old_value_gone (m : List (Json × Nat)) (k : Json) (v r1 : Nat)
    (hget : mapGet m k = some r1) (hnd : (m.map (fun e => e.2)).Nodup)
    (hne : r1 ≠ v) : r1 ∉ (mapSet m k v).map (fun e => e.2) := by
  have hmem : (k, r1) ∈ m := mem_of_mapGet_eq_some m k r1 hget
  have hany : m.any (fun e => e.1 == k) = true := by
    cases hany : m.any (fun e => e.1 == k) with
    | true => rfl
    | false =>
        rw [mapGet_eq_none_of_any_false m k hany] at hget
        exact absurd hget (by simp)
  unfold mapSet
  rw [if_pos hany]
  intro hr
  rw [List.map_map, List.mem_map] at hr
  obtain ⟨e, hem, hev⟩ := hr
  simp only [Function.comp] at hev
  by_cases hek : e.1 = k
  · rw [if_pos (by simp [hek])] at hev
    exact hne hev.symm
  · rw [if_neg (by simpa using hek)] at hev
    have := List.inj_on_of_nodup_map hnd hem hmem (by simpa using hev)
    exact hek (by rw [this])

/-- C10 (confirmed): calling `sendToMCP` with a wire identifier already
present in `pendingRequests` silently overwrites the existing entry —
the first request's completion handle is no longer reachable from the
map — and the first request's 30 s timer, on firing, deletes the entry
now belonging to the second request (and rejects the first request's
promise with the timeout error). -/
theorem C10_duplicate_id_overwrites (s : BridgeState) (msg : Json)
    (fresh : String) (r1 : Nat)
    (hproc : s.procExists = true) (hready : s.mcpReady = true)
    (hdup : mapGet s.pending (requestIdOf msg fresh) = some r1)
    (hne : r1 ≠ s.nextReq)
    (hnd : (s.pending.map (fun e => e.2)).Nodup)
    (hsent : lookupSent s.sentIds r1 = some (requestIdOf msg fresh))
    (htimer : r1 ∈ s.timers) :
    mapGet (sendToMCP s msg fresh true).pending (requestIdOf msg fresh) =
        some s.nextReq ∧
    r1 ∉ (sendToMCP s msg fresh true).pending.map (fun e => e.2) ∧
    (onReqTimer (sendToMCP s msg fresh true) r1).pending =
        mapDelete (sendToMCP s msg fresh true).pending (requestIdOf msg fresh) ∧
    mapGet ((onReqTimer (sendToMCP s msg fresh true) r1)).pending
        (requestIdOf msg fresh) = none ∧
    (onReqTimer (sendToMCP s msg fresh true) r1).log =
        (sendToMCP s msg fresh true).log ++ [(r1, Outcome.timeoutErr)] := by
  have hsend : sendToMCP s msg fresh true =
      { s with pending := mapSet s.pending (requestIdOf msg fresh) s.nextReq
               sentIds := s.sentIds ++ [(s.nextReq, requestIdOf msg fresh)]
               nextReq := s.nextReq + 1
               written := s.written ++ [setField msg "id" (requestIdOf msg fresh)]
               timers := s.timers ++ [s.nextReq] } := by
    unfold sendToMCP
    simp [hproc, hready]
  rw [hsend]
  have hget : mapGet (mapSet s.pending (requestIdOf msg fresh) s.nextReq)
      (requestIdOf msg fresh) = some s.nextReq := mapGet_set_self _ _ _
  refine ⟨hget, mapSet_old_value_gone _ _ _ _ hdup hnd hne, ?_⟩
  have hcont : (s.timers ++ [s.nextReq]).contains r1 = true := by
    have : r1 ∈ s.timers ++ [s.nextReq] := List.mem_append_left _ htimer
    simpa [List.contains_eq_any_beq] using this
  have hlook : lookupSent (s.sentIds ++ [(s.nextReq, requestIdOf msg fresh)]) r1 =
      some (requestIdOf msg fresh) := lookupSent_append_old _ _ _ _ hsent
  have htimer_eq : onReqTimer
      { s with pending := mapSet s.pending (requestIdOf msg fresh) s.nextReq
               sentIds := s.sentIds ++ [(s.nextReq, requestIdOf msg fresh)]
               nextReq := s.nextReq + 1
               written := s.written ++ [setField msg "id" (requestIdOf msg fresh)]
               timers := s.timers ++ [s.nextReq] } r1 =
      { s with pending := mapDelete (mapSet s.pending (requestIdOf msg fresh)
                            s.nextReq) (requestIdOf msg fresh)
               sentIds := s.sentIds ++ [(s.nextReq, requestIdOf msg fresh)]
               nextReq := s.nextReq + 1
               written := s.written ++ [setField msg "id" (requestIdOf msg fresh)]
               timers := (s.timers ++ [s.nextReq]).filter (fun t => !(t == r1))
               log := s.log ++ [(r1, Outcome.timeoutErr)] } := by
    unfold onReqTimer
    simp only [hcont, hlook, hget, Option.isSome_some, if_true]
  rw [htimer_eq]
  exact ⟨rfl, mapGet_delete_self _ _, rfl⟩

/-- A concrete `tools/list` request carrying caller-supplied id `"a"`. -/
def msgIdA : Json :=
  .obj [("jsonrpc", .str "2.0"), ("id", .str "a"), ("method", .str "tools/list")]

/-- The ready bridge after one successful send of `msgIdA`. -/
def c10Base : BridgeState := runEvents readyBridge [.send msgIdA "f0" true]

theorem C10_witness :
    mapGet (sendToMCP c10Base msgIdA "f1" true).pending
        (requestIdOf msgIdA "f1") = some c10Base.nextReq ∧
    0 ∉ (sendToMCP c10Base msgIdA "f1" true).pending.map (fun e => e.2) ∧
    (onReqTimer (sendToMCP c10Base msgIdA "f1" true) 0).pending =
        mapDelete (sendToMCP c10Base msgIdA "f1" true).pending
          (requestIdOf msgIdA "f1") ∧
    mapGet ((onReqTimer (sendToMCP c10Base msgIdA "f1" true) 0)).pending
        (requestIdOf msgIdA "f1") = none ∧
    (onReqTimer (sendToMCP c10Base msgIdA "f1" true) 0).log =
        (sendToMCP c10Base msgIdA "f1" true).log ++ [(0, Outcome.timeoutErr)] :=
  C10_duplicate_id_overwrites c10Base msgIdA "f1" 0 (by decide) (by decide)
    (by decide) (by decide) (by decide) (by decide) (by decide)

/-! ### C3: chunk framing of responses -/

/-- A ready bridge with three pending requests `"a"`, `"b"`, `"c"`. -/
def c3Base : BridgeState :=
  { readyBridge with
      pending := [(.str "a", 0), (.str "b", 1), (.str "c", 2)]
      sentIds := [(0, .str "a"), (1, .str "b"), (2, .str "c")]
      timers := [0, 1, 2]
      nextReq := 3 }

/-- Two complete JSON response lines followed by the first half of a
third response, all in one stdout chunk. -/
def c3Chunk1 : String :=
  "\x7b\"id\":\"a\",\"result\":1\x7d\n\x7b\"id\":\"b\",\"result\":2\x7d\n\x7b\"id\":\"c\",\"res"

/-- The remaining bytes of the third response, in the next chunk. -/
def c3Chunk2 : String := "ult\":3\x7d\n"

def c3Final : BridgeState :=
  runEvents c3Base [.stdoutData c3Chunk1, .stdoutData c3Chunk2]

/-- C3 counterexample: the two complete lines of the first chunk resolve
requests 0 and 1, but the response for `"c"` split across the two chunks
is never matched: request 2 receives no outcome and its entry is still
pending after the remaining bytes arrived — the stdout handler splits
each chunk independently and keeps no cross-chunk buffer for responses. -/
theorem C3_counterexample :
    outcomesFor c3Final 0 =
        [.response (.obj [("id", .str "a"), ("result", .num 1)])] ∧
    outcomesFor c3Final 1 =
        [.response (.obj [("id", .str "b"), ("result", .num 2)])] ∧
    outcomesFor c3Final 2 = [] ∧
    mapGet c3Final.pending (.str "c") = some 2 := by
  refine ⟨?_, ?_, ?_, ?_⟩ <;> rfl

/-- C3 (corrected): in steady state, a chunk holding two complete JSON
lines plus a partial third line yields exactly the two parsed messages —
resolving their two pending requests — while the partial tail is dropped,
not buffered; a later chunk carrying the remaining bytes is again parsed
in isolation, fails, and is dropped, so a response split across chunks
never reaches its pending request. -/
theorem C3_partial_line_not_buffered (s : BridgeState)
    (c1 c2 l1 l2 lp l3 : String) (m1 m2 j1 j2 : Json) (r1 r2 : Nat)
    (hready : s.mcpReady = true)
    (hc1 : linesOf c1 = [l1, l2, lp]) (hc2 : linesOf c2 = [l3])
    (hp1 : parseJson l1 = some m1) (hp2 : parseJson l2 = some m2)
    (hid1 : getField m1 "id" = some j1) (ht1 : truthy j1 = true)
    (hid2 : getField m2 "id" = some j2) (ht2 : truthy j2 = true)
    (hg1 : mapGet s.pending j1 = some r1)
    (hg2 : mapGet (mapDelete s.pending j1) j2 = some r2)
    (hlp : parseJson lp = none) (hl3 : parseJson l3 = none) :
    runEvents s [.stdoutData c1, .stdoutData c2] =
      { s with pending := mapDelete (mapDelete s.pending j1) j2
               log := s.log ++ [(r1, .response m1), (r2, .response m2)] } := by
  have h1 : handleLine s l1 =
      { s with pending := mapDelete s.pending j1
               log := s.log ++ [(r1, .response m1)] } := by
    unfold handleLine
    simp [hp1, hid1, ht1, hg1]
  have h2 : handleLine { s with pending := mapDelete s.pending j1
                                log := s.log ++ [(r1, Outcome.response m1)] } l2 =
      { s with pending := mapDelete (mapDelete s.pending j1) j2
               log := s.log ++ [(r1, .response m1), (r2, .response m2)] } := by
    unfold handleLine
    simp [hp2, hid2, ht2, hg2]
  have h3 : ∀ t : BridgeState, handleLine t lp = t := by
    intro t
    unfold handleLine
    simp [hlp]
  have h4 : ∀ t : BridgeState, handleLine t l3 = t := by
    intro t
    unfold handleLine
    simp [hl3]
  have hs1 : step s (.stdoutData c1) =
      { s with pending := mapDelete (mapDelete s.pending j1) j2
               log := s.log ++ [(r1, .response m1), (r2, .response m2)] } := by
    simp only [step]
    rw [onStdout_of_ready s c1 hready, hc1]
    simp only [List.foldl_cons, List.foldl_nil]
    rw [h1, h2, h3]
  have hs2ready : ({ s with
      pending := mapDelete (mapDelete s.pending j1) j2,
      log := s.log ++ [(r1, Outcome.response m1),
        (r2, Outcome.response m2)] } : BridgeState).mcpReady = true := hready
  unfold runEvents
  simp only [List.foldl_cons, List.foldl_nil]
  rw [hs1]
  simp only [step]
  rw [onStdout_of_ready _ c2 hs2ready, hc2]
  simp only [List.foldl_cons, List.foldl_nil]
  rw [h4]

theorem C3_witness :
    runEvents c3Base [.stdoutData c3Chunk1, .stdoutData c3Chunk2] =
      { c3Base with
          pending := mapDelete (mapDelete c3Base.pending (.str "a")) (.str "b")
          log := c3Base.log ++
            [(0, .response (.obj [("id", .str "a"), ("result", .num 1)])),
             (1, .response (.obj [("id", .str "b"), ("result", .num 2)]))] } :=
  C3_partial_line_not_buffered c3Base c3Chunk1 c3Chunk2
    "\x7b\"id\":\"a\",\"result\":1\x7d" "\x7b\"id\":\"b\",\"result\":2\x7d"
    "\x7b\"id\":\"c\",\"res" "ult\":3\x7d"
    (.obj [("id", .str "a"), ("result", .num 1)])
    (.obj [("id", .str "b"), ("result", .num 2)])
    (.str "a") (.str "b") 0 1
    rfl (by rfl) (by rfl) (by rfl) (by rfl) (by rfl) (by rfl) (by rfl)
    (by rfl) (by rfl) (by rfl) (by rfl) (by rfl)

/-! ### C7: per-request timeout -/

/-- Two sends that reuse the caller-supplied id `"a"`, then both 30 s
timers fire. -/
def c7Final : BridgeState :=
  runEvents readyBridge
    [.send msgIdA "f0" true, .send msgIdA "f1" true, .reqTimer 0, .reqTimer 1]

/-- C7 counterexample: request 1's matching response never arrives, yet
after both timers fire its call has resolved with nothing at all (no
timeout outcome), because request 0's timer deleted the shared map entry
— which at that point belonged to request 1.  The timeout of request 0
did not leave the other pending request unaffected, and request 1 never
resolves. -/
theorem C7_counterexample :
    registered c7Final 1 = true ∧
    c7Final.timers = [] ∧
    c7Final.pending = [] ∧
    outcomesFor c7Final 1 = [] ∧
    c7Final.log = [(0, Outcome.timeoutErr)] := by
  refine ⟨?_, ?_, ?_, ?_, ?_⟩ <;> rfl

/-- C7 (corrected): provided the request's identifier is held by its own
entry (no duplicate registration under the same id), a firing timeout
rejects exactly that request with the timeout error, removes exactly its
identifier from the pending map (all other entries survive), and a
response with that identifier arriving afterwards is dropped without any
state change. -/
theorem C7_timeout_removes_only_own_entry (s : BridgeState) (r : Nat) (j : Json)
    (c l : String) (m : Json)
    (hready : s.mcpReady = true)
    (hsent : lookupSent s.sentIds r = some j)
    (htimer : r ∈ s.timers)
    (hpend : mapGet s.pending j = some r)
    (hc : linesOf c = [l]) (hl : parseJson l = some m)
    (hid : getField m "id" = some j) :
    (onReqTimer s r).log = s.log ++ [(r, Outcome.timeoutErr)] ∧
    mapGet (onReqTimer s r).pending j = none ∧
    (∀ p ∈ s.pending, p.1 ≠ j → p ∈ (onReqTimer s r).pending) ∧
    runEvents (onReqTimer s r) [.stdoutData c] = onReqTimer s r := by
  have hcont : s.timers.contains r = true := by
    simpa [List.contains_eq_any_beq] using htimer
  have heq : onReqTimer s r =
      { s with timers := s.timers.filter (fun t => !(t == r))
               pending := mapDelete s.pending j
               log := s.log ++ [(r, Outcome.timeoutErr)] } := by
    unfold onReqTimer
    simp only [hcont, hsent, hpend, Option.isSome_some, if_true]
  have hdrop : ∀ t : BridgeState, t.pending = mapDelete s.pending j →
      handleLine t l = t := by
    intro t hpend'
    unfold handleLine
    cases ht : truthy j <;>
      simp [hl, hid, ht, hpend', mapGet_delete_self]
  rw [heq]
  refine ⟨rfl, mapGet_delete_self _ _, ?_, ?_⟩
  · intro p hp hne
    exact List.mem_filter.mpr ⟨hp, by simpa using hne⟩
  · unfold runEvents
    simp only [List.foldl_cons, List.foldl_nil, step]
    rw [onStdout_of_ready _ c (by exact hready), hc]
    simp only [List.foldl_cons, List.foldl_nil]
    exact hdrop _ rfl

/-- A ready bridge with two pending requests under distinct ids. -/
def c7WBase : BridgeState :=
  { readyBridge with
      pending := [(.str "a", 0), (.str "b", 1)]
      sentIds := [(0, .str "a"), (1, .str "b")]
      timers := [0, 1]
      nextReq := 2 }

theorem C7_witness :
    (onReqTimer c7WBase 0).log = c7WBase.log ++ [(0, Outcome.timeoutErr)] ∧
    mapGet (onReqTimer c7WBase 0).pending (.str "a") = none ∧
    (∀ p ∈ c7WBase.pending, p.1 ≠ Json.str "a" → p ∈ (onReqTimer c7WBase 0).pending) ∧
    runEvents (onReqTimer c7WBase 0)
        [.stdoutData "\x7b\"id\":\"a\",\"result\":9\x7d\n"] =
      onReqTimer c7WBase 0 :=
  C7_timeout_removes_only_own_entry c7WBase 0 (.str "a")
    "\x7b\"id\":\"a\",\"result\":9\x7d\n" "\x7b\"id\":\"a\",\"result\":9\x7d"
    (.obj [("id", .str "a"), ("result", .num 9)])
    rfl rfl (by decide) rfl (by rfl) (by rfl) (by rfl)

/-! ### C1: concurrent sends, responses in arbitrary order -/

theorem runEvents_append (s : BridgeState) (es1 es2 : List Event) :
    runEvents s (es1 ++ es2) = runEvents (runEvents s es1) es2 :=
  List.foldl_append ..

/-- The pending entries created by sends with ids `js`, first request
index `base`. -/
def entriesFrom (base : Nat) : List Json → List (Json × Nat)
  | [] => []
  | j :: js => (j, base) :: entriesFrom (base + 1) js

/-- The ghost registrations matching `entriesFrom`. -/
def ghostFrom (base : Nat) : List Json → List (Nat × Json)
  | [] => []
  | j :: js => (base, j) :: ghostFrom (base + 1) js

/-- `n` consecutive request indices from `base` (the scheduled timers). -/
def natsFrom (base : Nat) : Nat → List Nat
  | 0 => []
  | n + 1 => base :: natsFrom (base + 1) n

/-- The wire ids a batch of `sendToMCP(msg)` calls will use
(`message.id || uuidv4()`). -/
def jidsOf (reqs : List (Json × String)) : List Json :=
  reqs.map (fun q => requestIdOf q.1 q.2)

/-- The events of a batch of concurrent `sendToMCP` calls (writes all
succeed). -/
def sendEvents (reqs : List (Json × String)) : List Event :=
  reqs.map (fun q => .send q.1 q.2 true)

theorem entriesFrom_keys (base : Nat) (js : List Json) :
    (entriesFrom base js).map (fun p => p.1) = js := by
  induction js generalizing base with
  | nil => rfl
  | cons j js ih => simp [entriesFrom, ih]

theorem entriesFrom_rids (base : Nat) (js : List Json) :
    (entriesFrom base js).map (fun p => p.2) = natsFrom base js.length := by
  induction js generalizing base with
  | nil => rfl
  | cons j js ih => simp [entriesFrom, natsFrom, ih]

theorem natsFrom_mem (base n k : Nat) (h : k ∈ natsFrom base n) :
    base ≤ k ∧ k < base + n := by
  induction n generalizing base with
  | zero => simp [natsFrom] at h
  | succ n ih =>
      rcases List.mem_cons.mp h with h | h
      · omega
      · have := ih (base + 1) h
        omega

theorem natsFrom_nodup (base n : Nat) : (natsFrom base n).Nodup := by
  induction n generalizing base with
  | zero => simp [natsFrom]
  | succ n ih =>
      rw [natsFrom, List.nodup_cons]
      refine ⟨fun hmem => ?_, ih (base + 1)⟩
      have := natsFrom_mem (base + 1) n base hmem
      omega

theorem mapGet_append_single_none (m : List (Json × Nat)) (k j : Json) (v : Nat)
    (h1 : mapGet m j = none) (h2 : j ≠ k) :
    mapGet (m ++ [(k, v)]) j = none := by
  rw [mapGet_append_of_none m _ j h1, mapGet_cons, if_neg (fun he => h2 he.symm)]
  rfl

/-- Effect of a batch of successful sends from a ready bridge with fresh,
pairwise-distinct wire ids: entries, registrations and timers are
appended in order, and no outcome is delivered. -/
theorem sendAll (reqs : List (Json × String)) (s : BridgeState)
    (hproc : s.procExists = true) (hready : s.mcpReady = true)
    (hnd : (jidsOf reqs).Nodup)
    (hfresh : ∀ j ∈ jidsOf reqs, mapGet s.pending j = none) :
    runEvents s (sendEvents reqs) =
      { s with
          pending := s.pending ++ entriesFrom s.nextReq (jidsOf reqs)
          sentIds := s.sentIds ++ ghostFrom s.nextReq (jidsOf reqs)
          timers := s.timers ++ natsFrom s.nextReq reqs.length
          nextReq := s.nextReq + reqs.length
          written := s.written ++
            reqs.map (fun q => setField q.1 "id" (requestIdOf q.1 q.2)) } := by
  induction reqs generalizing s with
  | nil =>
      simp [sendEvents, runEvents, jidsOf, entriesFrom, ghostFrom, natsFrom]
  | cons q reqs ih =>
      simp only [jidsOf, List.map_cons, List.nodup_cons] at hnd
      have hfresh0 : mapGet s.pending (requestIdOf q.1 q.2) = none :=
        hfresh _ (by simp [jidsOf])
      have hsend : sendToMCP s q.1 q.2 true =
          { s with pending := s.pending ++ [(requestIdOf q.1 q.2, s.nextReq)]
                   sentIds := s.sentIds ++ [(s.nextReq, requestIdOf q.1 q.2)]
                   nextReq := s.nextReq + 1
                   written := s.written ++ [setField q.1 "id" (requestIdOf q.1 q.2)]
                   timers := s.timers ++ [s.nextReq] } := by
        unfold sendToMCP
        rw [mapSet_of_not_mem _ _ _ hfresh0]
        simp [hproc, hready]
      have hstep : runEvents s (sendEvents (q :: reqs)) =
          runEvents (sendToMCP s q.1 q.2 true) (sendEvents reqs) := rfl
      rw [hstep, hsend, ih]
      · simp only [jidsOf, List.map_cons, entriesFrom, ghostFrom,
          List.length_cons, natsFrom]
        simp [BridgeState.mk.injEq, List.append_assoc]
        omega
      · exact hproc
      · exact hready
      · exact hnd.2
      · intro j hj
        have hne : j ≠ requestIdOf q.1 q.2 := fun he => hnd.1 (he ▸ hj)
        exact mapGet_append_single_none _ _ _ _
          (hfresh j (by simpa [jidsOf] using Or.inr hj)) hne

theorem mapDelete_of_not_mem_keys (m : List (Json × Nat)) (k : Json)
    (h : k ∉ m.map (fun p => p.1)) : mapDelete m k = m := by
  induction m with
  | nil => rfl
  | cons p m ih =>
      simp only [List.map_cons, List.mem_cons, not_or] at h
      rw [mapDelete_cons, if_neg (fun he => h.1 he.symm), ih h.2]

theorem mapDelete_append (m1 m2 : List (Json × Nat)) (k : Json) :
    mapDelete (m1 ++ m2) k = mapDelete m1 k ++ mapDelete m2 k :=
  List.filter_append _ _

/-- Deleting a present key (keys pairwise distinct) removes exactly that
entry, up to permutation. -/
theorem mapDelete_perm (m : List (Json × Nat)) (k : Json) (r : Nat)
    (hmem : (k, r) ∈ m) (hknd : (m.map (fun p => p.1)).Nodup) :
    m.Perm ((k, r) :: mapDelete m k) := by
  obtain ⟨m1, m2, rfl⟩ := List.append_of_mem hmem
  have hknd' : ((m1.map (fun p => p.1)) ++
      k :: (m2.map (fun p => p.1))).Nodup := by simpa using hknd
  obtain ⟨hn1, hn2, hdisj⟩ := List.nodup_append.mp hknd'
  have hk1 : k ∉ m1.map (fun p => p.1) := by
    intro hmem1
    exact hdisj hmem1 (List.mem_cons_self _ _)
  have hk2 : k ∉ m2.map (fun p => p.1) := (List.nodup_cons.mp hn2).1
  have hdel : mapDelete (m1 ++ (k, r) :: m2) k = m1 ++ m2 := by
    rw [mapDelete_append, mapDelete_cons, if_pos rfl,
      mapDelete_of_not_mem_keys m1 k hk1, mapDelete_of_not_mem_keys m2 k hk2]
  rw [hdel]
  exact List.perm_middle

/-- One matched response arriving on stdout: chunk, its single line, and
the parsed message, destined for pending entry `(entryId, entryReq)`. -/
structure Arrival where
  entryId : Json
  entryReq : Nat
  chunk : String
  line : String
  msg : Json
  deriving DecidableEq, Repr

/-- The chunk frames to exactly one line which parses to a message whose
(truthy) id is the arrival's entry id. -/
def arrivalGood (a : Arrival) : Prop :=
  linesOf a.chunk = [a.line] ∧ parseJson a.line = some a.msg ∧
  getField a.msg "id" = some a.entryId ∧ truthy a.entryId = true

/-- Delivering, in any order, one matching response per pending entry
resolves every entry with its own response and empties the map. -/
theorem respAll (as : List Arrival) (s : BridgeState)
    (hready : s.mcpReady = true)
    (hknd : (s.pending.map (fun p => p.1)).Nodup)
    (hperm : (as.map (fun a => (a.entryId, a.entryReq))).Perm s.pending)
    (hg : ∀ a ∈ as, arrivalGood a) :
    runEvents s (as.map (fun a => .stdoutData a.chunk)) =
      { s with pending := []
               log := s.log ++
                 as.map (fun a => (a.entryReq, Outcome.response a.msg)) } := by
  induction as generalizing s with
  | nil =>
      have hp : s.pending = [] := hperm.symm.eq_nil
      simp only [List.map_nil, List.append_nil]
      show s = _
      rw [← hp]
  | cons a as ih =>
      obtain ⟨hc, hl, hid, ht⟩ := hg a (List.mem_cons_self _ _)
      have hmem : (a.entryId, a.entryReq) ∈ s.pending :=
        hperm.subset (by simp)
      have hget : mapGet s.pending a.entryId = some a.entryReq :=
        mapGet_of_mem_nodup _ _ _ hmem hknd
      have hstep : step s (.stdoutData a.chunk) =
          { s with pending := mapDelete s.pending a.entryId
                   log := s.log ++ [(a.entryReq, Outcome.response a.msg)] } := by
        simp only [step]
        rw [onStdout_of_ready s _ hready, hc]
        simp only [List.foldl_cons, List.foldl_nil]
        unfold handleLine
        simp [hl, hid, ht, hget]
      have hperm' : (as.map (fun x => (x.entryId, x.entryReq))).Perm
          (mapDelete s.pending a.entryId) :=
        (hperm.trans (mapDelete_perm _ _ _ hmem hknd)).cons_inv
      have hknd' : ((mapDelete s.pending a.entryId).map (fun p => p.1)).Nodup :=
        List.Nodup.sublist (mapDelete_keys_sublist _ _) hknd
      have hstep2 : runEvents s (List.map (fun x => Event.stdoutData x.chunk)
          (a :: as)) = runEvents (step s (.stdoutData a.chunk))
          (as.map (fun x => .stdoutData x.chunk)) := rfl
      rw [hstep2, hstep, ih]
      · simp [BridgeState.mk.injEq, List.append_assoc]
      · exact hready
      · exact hknd'
      · exact hperm'
      · intro x hx
        exact hg x (List.mem_cons_of_mem _ hx)

theorem filter_rid_eq_nil (L : List (Nat × Outcome)) (r : Nat)
    (h : r ∉ L.map (fun p => p.1)) :
    L.filter (fun p => p.1 == r) = [] := by
  induction L with
  | nil => rfl
  | cons q L ih =>
      simp only [List.map_cons, List.mem_cons, not_or] at h
      rw [List.filter_cons, if_neg (by simpa using fun he => h.1 he.symm)]
      exact ih h.2

theorem filter_rid_single (L : List (Nat × Outcome)) (r : Nat) (o : Outcome)
    (hmem : (r, o) ∈ L) (hnd : (L.map (fun p => p.1)).Nodup) :
    L.filter (fun p => p.1 == r) = [(r, o)] := by
  induction L with
  | nil => simp at hmem
  | cons q L ih =>
      simp only [List.map_cons, List.nodup_cons] at hnd
      by_cases hq : q.1 = r
      · have hqo : q = (r, o) := by
          rcases List.mem_cons.mp hmem with h | h
          · exact h.symm
          · exact absurd (by rw [hq]; exact List.mem_map.mpr ⟨(r, o), h, rfl⟩)
              hnd.1
        rw [hqo, List.filter_cons, if_pos (by simp)]
        have hr : r ∉ L.map (fun p => p.1) := by
          rw [← hq]
          exact hnd.1
        rw [filter_rid_eq_nil L r hr]
      · rw [List.filter_cons, if_neg (by simpa using hq)]
        refine ih ?_ hnd.2
        rcases List.mem_cons.mp hmem with h | h
        · exact absurd (congrArg Prod.fst h.symm) hq
        · exact h

/-- C1 (confirmed): for a batch of concurrent `sendToMCP` calls with
pairwise-distinct (truthy-framed) wire ids issued on a fresh ready
bridge, and one matching response line per request arriving in an
arbitrary order — `as` is any permutation of the registered entries —
every call resolves exactly once, with the response whose id equals its
own identifier. -/
theorem C1_concurrent_sends_any_response_order
    (reqs : List (Json × String)) (as : List Arrival) (a : Arrival)
    (hnd : (jidsOf reqs).Nodup)
    (hperm : (as.map (fun x => (x.entryId, x.entryReq))).Perm
        (entriesFrom 0 (jidsOf reqs)))
    (hg : ∀ x ∈ as, arrivalGood x)
    (ha : a ∈ as) :
    outcomesFor (runEvents readyBridge
        (sendEvents reqs ++ as.map (fun x => .stdoutData x.chunk)))
        a.entryReq =
      [Outcome.response a.msg] ∧
    getField a.msg "id" = some a.entryId := by
  rw [runEvents_append]
  have hsend := sendAll reqs readyBridge rfl rfl hnd (fun j hj => rfl)
  rw [hsend]
  rw [respAll as _ rfl ?hk ?hp hg]
  case hk =>
    show ((readyBridge.pending ++
        entriesFrom readyBridge.nextReq (jidsOf reqs)).map (fun p => p.1)).Nodup
    simpa [readyBridge, spawnedState, entriesFrom_keys] using hnd
  case hp =>
    show (as.map (fun x => (x.entryId, x.entryReq))).Perm
        (readyBridge.pending ++ entriesFrom readyBridge.nextReq (jidsOf reqs))
    simpa [readyBridge, spawnedState] using hperm
  refine ⟨?_, (hg a ha).2.2.1⟩
  unfold outcomesFor
  simp only [readyBridge, spawnedState, List.nil_append]
  rw [filter_rid_single _ a.entryReq (Outcome.response a.msg) ?mem ?nd]
  · rfl
  case mem => exact List.mem_map.mpr ⟨a, ha, rfl⟩
  case nd =>
    have h1 : ((as.map (fun x => (x.entryId, x.entryReq))).map
        (fun p => p.2)).Perm ((entriesFrom 0 (jidsOf reqs)).map (fun p => p.2)) :=
      hperm.map _
    have h2 : ((entriesFrom 0 (jidsOf reqs)).map (fun p => p.2)).Nodup := by
      rw [entriesFrom_rids]
      exact natsFrom_nodup _ _
    have h3 : (as.map (fun x => x.entryReq)).Nodup := by
      have := (List.Perm.nodup_iff h1).mpr h2
      simpa [List.map_map, Function.comp] using this
    simpa [List.map_map, Function.comp] using h3

/-- A second concrete request, carrying caller-supplied id `"b"`. -/
def msgIdB : Json :=
  .obj [("jsonrpc", .str "2.0"), ("id", .str "b"), ("method", .str "tools/call")]

def c1Reqs : List (Json × String) := [(msgIdA, "f0"), (msgIdB, "f1")]

def c1ArrB : Arrival :=
  ⟨.str "b", 1, "\x7b\"id\":\"b\",\"result\":2\x7d\n",
   "\x7b\"id\":\"b\",\"result\":2\x7d",
   .obj [("id", .str "b"), ("result", .num 2)]⟩

def c1ArrA : Arrival :=
  ⟨.str "a", 0, "\x7b\"id\":\"a\",\"result\":1\x7d\n",
   "\x7b\"id\":\"a\",\"result\":1\x7d",
   .obj [("id", .str "a"), ("result", .num 1)]⟩

/-- The two responses arrive in reverse of send order. -/
def c1As : List Arrival := [c1ArrB, c1ArrA]

theorem C1_witness :
    outcomesFor (runEvents readyBridge
        (sendEvents c1Reqs ++ c1As.map (fun x => .stdoutData x.chunk)))
        c1ArrA.entryReq =
      [Outcome.response c1ArrA.msg] ∧
    getField c1ArrA.msg "id" = some c1ArrA.entryId :=
  C1_concurrent_sends_any_response_order c1Reqs c1As c1ArrA
    (by decide) (by decide)
    (by
      intro x hx
      rcases List.mem_cons.mp hx with rfl | hx
      · exact ⟨rfl, rfl, rfl, rfl⟩
      rcases List.mem_cons.mp hx with rfl | hx
      · exact ⟨rfl, rfl, rfl, rfl⟩
      · cases hx)
    (by decide)

/-! ### C2: the exactly-one-outcome invariant -/

/-- The terminal outcomes a registered request may legitimately receive:
its own response, the timeout error, or the process-closed error. -/
def okOut (j : Json) : Outcome → Prop
  | .response m => getField m "id" = some j
  | .timeoutErr => True
  | .processClosed => True
  | .notReady => False
  | .writeFailed => False

/-- Outcomes delivered to request `r` in a raw log. -/
def outsFor (L : List (Nat × Outcome)) (r : Nat) : List Outcome :=
  (L.filter (fun e => e.1 == r)).map (fun e => e.2)

theorem outcomesFor_eq_outsFor (s : BridgeState) (r : Nat) :
    outcomesFor s r = outsFor s.log r := rfl

theorem outsFor_append (L1 L2 : List (Nat × Outcome)) (r : Nat) :
    outsFor (L1 ++ L2) r = outsFor L1 r ++ outsFor L2 r := by
  simp [outsFor, List.filter_append]

theorem outsFor_single_ne (e : Nat × Outcome) (r : Nat) (h : e.1 ≠ r) :
    outsFor [e] r = [] := by
  have hb : (e.1 == r) = false := by simpa using h
  simp [outsFor, List.filter, hb]

theorem outsFor_single_eq (o : Outcome) (r : Nat) :
    outsFor [(r, o)] r = [o] := by
  simp [outsFor, List.filter]

theorem outsFor_eq_nil (L : List (Nat × Outcome)) (r : Nat)
    (h : r ∉ L.map (fun p => p.1)) : outsFor L r = [] := by
  unfold outsFor
  rw [filter_rid_eq_nil L r h]
  rfl

/-- The correlation invariant of the bridge (under pairwise-distinct
wire ids and successful writes): pending entries belong to registered
requests and are unsettled; every registered request is either pending
with a live timer or settled with exactly one legitimate outcome. -/
structure Inv (s : BridgeState) : Prop where
  keysNodup : (s.pending.map (fun p => p.1)).Nodup
  sentKeysNodup : (s.sentIds.map (fun p => p.1)).Nodup
  sentJidsNodup : (s.sentIds.map (fun p => p.2)).Nodup
  pend_sent : ∀ p ∈ s.pending, lookupSent s.sentIds p.2 = some p.1
  pend_unsettled : ∀ p ∈ s.pending, outcomesFor s p.2 = []
  reg_state : ∀ r j, lookupSent s.sentIds r = some j →
      (mapGet s.pending j = some r ∧ r ∈ s.timers) ∨
      (mapGet s.pending j = none ∧ ∃ o, outcomesFor s r = [o] ∧ okOut j o)
  sent_lt : ∀ p ∈ s.sentIds, p.1 < s.nextReq
  log_lt : ∀ p ∈ s.log, p.1 < s.nextReq

theorem inv_spawned : Inv spawnedState := by
  constructor <;> simp [spawnedState, outcomesFor, lookupSent]

/-- The invariant only looks at the correlation fields. -/
theorem inv_congr (s s' : BridgeState) (hInv : Inv s)
    (h1 : s'.pending = s.pending) (h2 : s'.sentIds = s.sentIds)
    (h3 : s'.timers = s.timers) (h4 : s'.nextReq = s.nextReq)
    (h5 : s'.log = s.log) : Inv s' := by
  constructor
  · rw [h1]; exact hInv.keysNodup
  · rw [h2]; exact hInv.sentKeysNodup
  · rw [h2]; exact hInv.sentJidsNodup
  · rw [h1, h2]; exact hInv.pend_sent
  · intro p hp
    rw [outcomesFor_eq_outsFor, h5]
    rw [h1] at hp
    exact hInv.pend_unsettled p hp
  · intro r j hr
    rw [h2] at hr
    rcases hInv.reg_state r j hr with ⟨hg, ht⟩ | ⟨hg, o, ho, hok⟩
    · exact Or.inl ⟨h1 ▸ hg, h3 ▸ ht⟩
    · refine Or.inr ⟨h1 ▸ hg, o, ?_, hok⟩
      rw [outcomesFor_eq_outsFor, h5]
      exact ho
  · rw [h2, h4]; exact hInv.sent_lt
  · rw [h5, h4]; exact hInv.log_lt

/-- Values of the pending map are pairwise distinct. -/
theorem Inv.pending_rid_inj (s : BridgeState) (hInv : Inv s) :
    ∀ p ∈ s.pending, ∀ q ∈ s.pending, p.2 = q.2 → p = q := by
  intro p hp q hq hpq
  have h1 := hInv.pend_sent p hp
  have h2 := hInv.pend_sent q hq
  rw [hpq, h2] at h1
  have hkey : p.1 = q.1 := by
    injection h1 with h
    exact h.symm
  have := List.inj_on_of_nodup_map hInv.keysNodup hp hq hkey
  exact this

theorem Inv.pending_rids_nodup (s : BridgeState) (hInv : Inv s) :
    (s.pending.map (fun p => p.2)).Nodup := by
  have hself : s.pending.Nodup := List.Nodup.of_map _ hInv.keysNodup
  exact List.Nodup.map_on (fun x hx y hy hxy =>
    Inv.pending_rid_inj s hInv x hx y hy hxy) hself

/-- Any registered (hence pending at some point) request index is below
`nextReq`. -/
theorem Inv.pending_rid_lt (s : BridgeState) (hInv : Inv s) :
    ∀ p ∈ s.pending, p.2 < s.nextReq := by
  intro p hp
  have h1 := hInv.pend_sent p hp
  exact hInv.sent_lt _ (mem_of_lookupSent_eq_some _ _ _ h1)

/-- Case analysis of one line of the response loop. -/
theorem handleLine_cases (s : BridgeState) (l : String) :
    handleLine s l = s ∨
    ∃ resp idv r, getField resp "id" = some idv ∧
      mapGet s.pending idv = some r ∧
      handleLine s l =
        { s with pending := mapDelete s.pending idv
                 log := s.log ++ [(r, Outcome.response resp)] } := by
  unfold handleLine
  split
  · exact Or.inl rfl
  · rename_i resp hp
    split
    · exact Or.inl rfl
    · rename_i idv hgf
      split
      · split
        · rename_i r hm
          exact Or.inr ⟨resp, idv, r, hgf, hm, rfl⟩
        · exact Or.inl rfl
      · exact Or.inl rfl

/-- Settling a pending entry with a legitimate outcome (its response, or
an error) and removing it preserves the invariant. -/
theorem inv_settle (s : BridgeState) (idv : Json) (r : Nat) (o : Outcome)
    (hInv : Inv s)
    (hid : okOut idv o)
    (hm : mapGet s.pending idv = some r) :
    Inv { s with pending := mapDelete s.pending idv
                 log := s.log ++ [(r, o)] } := by
  have hmem : (idv, r) ∈ s.pending := mem_of_mapGet_eq_some _ _ _ hm
  have hsentr : lookupSent s.sentIds r = some idv := hInv.pend_sent _ hmem
  constructor
  · exact List.Nodup.sublist (mapDelete_keys_sublist _ _) hInv.keysNodup
  · exact hInv.sentKeysNodup
  · exact hInv.sentJidsNodup
  · intro p hp
    exact hInv.pend_sent p (List.mem_of_mem_filter hp)
  · intro p hp
    have hpmem : p ∈ s.pending := List.mem_of_mem_filter hp
    have hpr : p.2 ≠ r := by
      intro he
      have := Inv.pending_rid_inj s hInv p hpmem (idv, r) hmem he
      rw [this] at hp
      simp [mapDelete, List.mem_filter] at hp
    rw [outcomesFor_eq_outsFor]
    show outsFor (s.log ++ [(r, o)]) p.2 = []
    rw [outsFor_append, outsFor_single_ne _ _ (fun he => hpr he.symm),
      List.append_nil]
    exact hInv.pend_unsettled p hpmem
  · intro r' j' hr'
    by_cases hrr : r' = r
    · subst hrr
      have hj' : j' = idv := by
        rw [hsentr] at hr'
        injection hr' with hinj
        exact hinj.symm
      subst hj'
      refine Or.inr ⟨mapGet_delete_self _ _, o, ?_, hid⟩
      rw [outcomesFor_eq_outsFor]
      show outsFor (s.log ++ [(r', o)]) r' = _
      rw [outsFor_append, outsFor_single_eq]
      have : outsFor s.log r' = [] := hInv.pend_unsettled _ hmem
      rw [this, List.nil_append]
    · have houts : outsFor (s.log ++ [(r, o)]) r' =
          outcomesFor s r' := by
        rw [outsFor_append, outsFor_single_ne _ _ (fun he => hrr he.symm),
          List.append_nil]
        rfl
      rcases hInv.reg_state r' j' hr' with ⟨hg, ht⟩ | ⟨hg, o2, ho, hok⟩
      · have hji : j' ≠ idv := by
          intro he
          rw [he, hm] at hg
          refine hrr ?_
          injection hg with hinj
          exact hinj.symm
        refine Or.inl ⟨?_, ht⟩
        show mapGet (mapDelete s.pending idv) j' = some r'
        rw [mapGet_delete_ne _ _ _ hji]
        exact hg
      · refine Or.inr ⟨?_, o2, ?_, hok⟩
        · show mapGet (mapDelete s.pending idv) j' = none
          by_cases hji : j' = idv
          · subst hji
            exact mapGet_delete_self _ _
          · rw [mapGet_delete_ne _ _ _ hji]
            exact hg
        · rw [outcomesFor_eq_outsFor]
          show outsFor (s.log ++ [(r, o)]) r' = [o2]
          rw [houts]
          exact ho
  · exact hInv.sent_lt
  · intro p hp
    rcases List.mem_append.mp hp with h | h
    · exact hInv.log_lt p h
    · have : p = (r, o) := by simpa using h
      rw [this]
      exact hInv.sent_lt _ (mem_of_lookupSent_eq_some _ _ _ hsentr)

theorem inv_handleLine (s : BridgeState) (l : String) (hInv : Inv s) :
    Inv (handleLine s l) := by
  rcases handleLine_cases s l with h | ⟨resp, idv, r, hid, hm, h⟩
  · rw [h]; exact hInv
  · rw [h]; exact inv_settle s idv r (Outcome.response resp) hInv hid hm

theorem inv_foldlHandleLine (ls : List String) (s : BridgeState) (hInv : Inv s) :
    Inv (ls.foldl handleLine s) := by
  induction ls generalizing s with
  | nil => exact hInv
  | cons l ls ih => exact ih _ (inv_handleLine s l hInv)

theorem inv_onStdout (s : BridgeState) (c : String) (hInv : Inv s) :
    Inv (onStdout s c) := by
  unfold onStdout
  cases hr : s.mcpReady with
  | true =>
      rw [if_neg (by simp [hr])]
      exact inv_foldlHandleLine _ _ hInv
  | false =>
      rw [if_pos (by simp [hr])]
      split
      · exact inv_congr s _ hInv rfl rfl rfl rfl rfl
      · refine inv_foldlHandleLine _ _ (inv_congr s _ hInv rfl rfl rfl rfl rfl)

theorem inv_onStderr (s : BridgeState) (c : String) (hInv : Inv s) :
    Inv (onStderr s c) := by
  unfold onStderr
  split
  · exact inv_congr s _ hInv rfl rfl rfl rfl rfl
  · exact hInv

theorem lookupSent_append_of_none (A B : List (Nat × Json)) (r : Nat)
    (h : lookupSent A r = none) : lookupSent (A ++ B) r = lookupSent B r := by
  induction A with
  | nil => simp
  | cons p A ih =>
      rw [lookupSent_cons] at h
      by_cases hk : p.1 = r
      · rw [if_pos hk] at h
        exact absurd h (by simp)
      · rw [if_neg hk] at h
        rw [List.cons_append, lookupSent_cons, if_neg hk]
        exact ih h

theorem lookupSent_append_single_cases (A : List (Nat × Json)) (n : Nat)
    (jid : Json) (r : Nat) (j : Json)
    (h : lookupSent (A ++ [(n, jid)]) r = some j) :
    lookupSent A r = some j ∨
    (lookupSent A r = none ∧ r = n ∧ j = jid) := by
  cases hA : lookupSent A r with
  | some x =>
      left
      rw [lookupSent_append_old _ _ _ _ hA] at h
      exact h
  | none =>
      right
      rw [lookupSent_append_of_none _ _ _ hA] at h
      rw [lookupSent_cons] at h
      by_cases hn : n = r
      · rw [if_pos hn] at h
        injection h with hinj
        exact ⟨rfl, hn.symm, hinj.symm⟩
      · rw [if_neg hn] at h
        exact absurd h (by simp [lookupSent])

/-- A gated-out `sendToMCP` (process absent or not ready) preserves the
invariant: it only logs the not-ready rejection for a fresh index. -/
theorem inv_send_gate (s : BridgeState) (msg : Json) (f : String) (w : Bool)
    (hInv : Inv s) (hg : (!s.procExists || !s.mcpReady) = true) :
    Inv (sendToMCP s msg f w) := by
  unfold sendToMCP
  rw [if_pos hg]
  constructor
  · exact hInv.keysNodup
  · exact hInv.sentKeysNodup
  · exact hInv.sentJidsNodup
  · exact hInv.pend_sent
  · intro p hp
    rw [outcomesFor_eq_outsFor]
    show outsFor (s.log ++ [(s.nextReq, Outcome.notReady)]) p.2 = []
    have hlt := Inv.pending_rid_lt s hInv p hp
    rw [outsFor_append, outsFor_single_ne _ _ (by simp; omega), List.append_nil]
    exact hInv.pend_unsettled p hp
  · intro r j hr
    rcases hInv.reg_state r j hr with ⟨hg1, ht⟩ | ⟨hg1, o, ho, hok⟩
    · exact Or.inl ⟨hg1, ht⟩
    · refine Or.inr ⟨hg1, o, ?_, hok⟩
      rw [outcomesFor_eq_outsFor]
      show outsFor (s.log ++ [(s.nextReq, Outcome.notReady)]) r = [o]
      have hlt := hInv.sent_lt _ (mem_of_lookupSent_eq_some _ _ _ hr)
      rw [outsFor_append, outsFor_single_ne _ _ (by simp; omega), List.append_nil]
      exact ho
  · intro p hp
    have := hInv.sent_lt p hp
    show p.1 < s.nextReq + 1
    omega
  · intro p hp
    rcases List.mem_append.mp hp with h | h
    · have := hInv.log_lt p h
      show p.1 < s.nextReq + 1
      omega
    · have hpe : p = (s.nextReq, Outcome.notReady) := by simpa using h
      rw [hpe]
      exact Nat.lt_succ_self _

/-- A registering `sendToMCP` with a fresh wire id and a successful
write preserves the invariant. -/
theorem inv_send_reg (s : BridgeState) (msg : Json) (f : String)
    (hInv : Inv s) (hproc : s.procExists = true) (hready : s.mcpReady = true)
    (hfresh : requestIdOf msg f ∉ s.sentIds.map (fun p => p.2)) :
    Inv (sendToMCP s msg f true) := by
  have hkeys_sub : ∀ j ∈ s.pending.map (fun p => p.1),
      j ∈ s.sentIds.map (fun p => p.2) := by
    intro j hj
    obtain ⟨p, hp, rfl⟩ := List.mem_map.mp hj
    exact List.mem_map.mpr ⟨(p.2, p.1),
      mem_of_lookupSent_eq_some _ _ _ (hInv.pend_sent p hp), rfl⟩
  have hjid_keys : requestIdOf msg f ∉ s.pending.map (fun p => p.1) :=
    fun h => hfresh (hkeys_sub _ h)
  have hget_none : mapGet s.pending (requestIdOf msg f) = none :=
    mapGet_eq_none_of_not_mem_keys _ _ hjid_keys
  have hsend : sendToMCP s msg f true = { s with
      pending := s.pending ++ [(requestIdOf msg f, s.nextReq)]
      sentIds := s.sentIds ++ [(s.nextReq, requestIdOf msg f)]
      nextReq := s.nextReq + 1
      written := s.written ++ [setField msg "id" (requestIdOf msg f)]
      timers := s.timers ++ [s.nextReq] } := by
    unfold sendToMCP
    rw [mapSet_of_not_mem _ _ _ hget_none]
    simp [hproc, hready]
  rw [hsend]
  have hnextsent : lookupSent s.sentIds s.nextReq = none := by
    apply lookupSent_eq_none_of_not_mem
    intro hmem
    obtain ⟨p, hp, he⟩ := List.mem_map.mp hmem
    have := hInv.sent_lt p hp
    omega
  constructor
  · show ((s.pending ++ [(requestIdOf msg f, s.nextReq)]).map
        (fun p => p.1)).Nodup
    rw [List.map_append, List.nodup_append]
    refine ⟨hInv.keysNodup, List.nodup_singleton _, ?_⟩
    intro a ha hb
    have hae : a = requestIdOf msg f := by simpa using hb
    rw [hae] at ha
    exact hjid_keys ha
  · show ((s.sentIds ++ [(s.nextReq, requestIdOf msg f)]).map
        (fun p => p.1)).Nodup
    rw [List.map_append, List.nodup_append]
    refine ⟨hInv.sentKeysNodup, List.nodup_singleton _, ?_⟩
    intro a ha hb
    have hae : a = s.nextReq := by simpa using hb
    obtain ⟨p, hp, he⟩ := List.mem_map.mp ha
    have := hInv.sent_lt p hp
    omega
  · show ((s.sentIds ++ [(s.nextReq, requestIdOf msg f)]).map
        (fun p => p.2)).Nodup
    rw [List.map_append, List.nodup_append]
    refine ⟨hInv.sentJidsNodup, List.nodup_singleton _, ?_⟩
    intro a ha hb
    have hae : a = requestIdOf msg f := by simpa using hb
    rw [hae] at ha
    exact hfresh ha
  · intro p hp
    rcases List.mem_append.mp hp with h | h
    · show lookupSent (s.sentIds ++ [(s.nextReq, requestIdOf msg f)]) p.2 =
          some p.1
      exact lookupSent_append_old _ _ _ _ (hInv.pend_sent p h)
    · have hpe : p = (requestIdOf msg f, s.nextReq) := by simpa using h
      rw [hpe]
      exact lookupSent_append_new _ _ _ hnextsent
  · intro p hp
    rw [outcomesFor_eq_outsFor]
    show outsFor s.log p.2 = []
    rcases List.mem_append.mp hp with h | h
    · exact hInv.pend_unsettled p h
    · have hpe : p = (requestIdOf msg f, s.nextReq) := by simpa using h
      rw [hpe]
      apply outsFor_eq_nil
      intro hmem
      obtain ⟨q, hq, hqe⟩ := List.mem_map.mp hmem
      have := hInv.log_lt q hq
      omega
  · intro r j hr
    rcases lookupSent_append_single_cases _ _ _ _ _ hr with hold | ⟨hnone, hre, hje⟩
    · have hjne : j ≠ requestIdOf msg f := by
        intro he
        refine hfresh ?_
        rw [← he]
        exact List.mem_map.mpr ⟨(r, j), mem_of_lookupSent_eq_some _ _ _ hold, rfl⟩
      rcases hInv.reg_state r j hold with ⟨hg1, ht⟩ | ⟨hg1, o, ho, hok⟩
      · refine Or.inl ⟨?_, List.mem_append_left _ ht⟩
        show mapGet (s.pending ++ [(requestIdOf msg f, s.nextReq)]) j = some r
        exact mapGet_append_of_some _ _ _ _ hg1
      · refine Or.inr ⟨?_, o, ho, hok⟩
        show mapGet (s.pending ++ [(requestIdOf msg f, s.nextReq)]) j = none
        exact mapGet_append_single_none _ _ _ _ hg1 hjne
    · subst hre
      subst hje
      refine Or.inl ⟨?_, List.mem_append_right _ (by simp)⟩
      show mapGet (s.pending ++ [(requestIdOf msg f, s.nextReq)])
          (requestIdOf msg f) = some s.nextReq
      rw [mapGet_append_of_none _ _ _ hget_none, mapGet_cons]
      simp
  · intro p hp
    rcases List.mem_append.mp hp with h | h
    · have := hInv.sent_lt p h
      show p.1 < s.nextReq + 1
      omega
    · have hpe : p = (s.nextReq, requestIdOf msg f) := by simpa using h
      rw [hpe]
      exact Nat.lt_succ_self _
  · intro p hp
    have := hInv.log_lt p hp
    show p.1 < s.nextReq + 1
    omega

/-- Consuming a timer that resolves nothing preserves the invariant,
provided no live pending request's timer is the consumed one. -/
theorem inv_timers_filter (s : BridgeState) (r0 : Nat) (hInv : Inv s)
    (hnew : ∀ r j, lookupSent s.sentIds r = some j →
      mapGet s.pending j = some r → r ≠ r0) :
    Inv { s with timers := s.timers.filter (fun t => !(t == r0)) } := by
  constructor
  · exact hInv.keysNodup
  · exact hInv.sentKeysNodup
  · exact hInv.sentJidsNodup
  · exact hInv.pend_sent
  · intro p hp
    rw [outcomesFor_eq_outsFor]
    exact hInv.pend_unsettled p hp
  · intro r j hr
    rcases hInv.reg_state r j hr with ⟨hg1, ht⟩ | ⟨hg1, o, ho, hok⟩
    · refine Or.inl ⟨hg1, ?_⟩
      show r ∈ s.timers.filter (fun t => !(t == r0))
      refine List.mem_filter.mpr ⟨ht, ?_⟩
      have := hnew r j hr hg1
      simpa using this
    · exact Or.inr ⟨hg1, o, ho, hok⟩
  · exact hInv.sent_lt
  · exact hInv.log_lt

theorem inv_reqTimer (s : BridgeState) (r0 : Nat) (hInv : Inv s) :
    Inv (onReqTimer s r0) := by
  unfold onReqTimer
  split
  · split
    · rename_i hl
      refine inv_timers_filter s r0 hInv ?_
      intro r j hr hg he
      rw [he, hl] at hr
      cases hr
    · rename_i jid0 hl
      split
      · rename_i hgo
        rw [Option.isSome_iff_exists] at hgo
        obtain ⟨r1, hget⟩ := hgo
        have hr1 : r1 = r0 := by
          have hmem1 : (jid0, r1) ∈ s.pending := mem_of_mapGet_eq_some _ _ _ hget
          have hs1 : lookupSent s.sentIds r1 = some jid0 :=
            hInv.pend_sent _ hmem1
          exact lookupSent_inj _ _ _ _ hInv.sentJidsNodup hs1 hl
        subst hr1
        have h1 : Inv { s with pending := mapDelete s.pending jid0
                               log := s.log ++ [(r1, Outcome.timeoutErr)] } :=
          inv_settle s jid0 r1 Outcome.timeoutErr hInv trivial hget
        have h2 := inv_timers_filter
          { s with pending := mapDelete s.pending jid0
                   log := s.log ++ [(r1, Outcome.timeoutErr)] } r1 h1 ?_
        · exact inv_congr _ _ h2 rfl rfl rfl rfl rfl
        · intro r j hr hg he
          subst he
          have hr2 : lookupSent s.sentIds r = some j := hr
          have hje : j = jid0 := by
            rw [hl] at hr2
            injection hr2 with hinj
            exact hinj.symm
          subst hje
          have hg2 : mapGet (mapDelete s.pending j) j = some r := hg
          rw [mapGet_delete_self] at hg2
          cases hg2
      · rename_i hgo
        have hnone : mapGet s.pending jid0 = none := by
          cases hx : mapGet s.pending jid0 with
          | none => rfl
          | some v =>
              rw [hx] at hgo
              simp at hgo
        refine inv_timers_filter s r0 hInv ?_
        intro r j hr hg he
        subst he
        have hje : j = jid0 := by
          rw [hl] at hr
          injection hr with hinj
          exact hinj.symm
        rw [hje, hnone] at hg
        cases hg
  · exact hInv

theorem inv_onClose (s : BridgeState) (hInv : Inv s) : Inv (onClose s) := by
  unfold onClose
  have hmap : (s.pending.map (fun e => (e.2, Outcome.processClosed))).map
      (fun p => p.1) = s.pending.map (fun p => p.2) := by
    simp [List.map_map, Function.comp]
  constructor
  · simp
  · exact hInv.sentKeysNodup
  · exact hInv.sentJidsNodup
  · intro p hp
    simp at hp
  · intro p hp
    simp at hp
  · intro r j hr
    rcases hInv.reg_state r j hr with ⟨hg, ht⟩ | ⟨hg, o, ho, hok⟩
    · have hmem : (j, r) ∈ s.pending := mem_of_mapGet_eq_some _ _ _ hg
      refine Or.inr ⟨rfl, Outcome.processClosed, ?_, trivial⟩
      rw [outcomesFor_eq_outsFor]
      show outsFor (s.log ++ s.pending.map
          (fun e => (e.2, Outcome.processClosed))) r = _
      rw [outsFor_append]
      have h1 : outsFor s.log r = [] := hInv.pend_unsettled _ hmem
      have h2 : outsFor (s.pending.map (fun e => (e.2, Outcome.processClosed))) r
          = [Outcome.processClosed] := by
        unfold outsFor
        rw [filter_rid_single _ r Outcome.processClosed
          (List.mem_map.mpr ⟨(j, r), hmem, rfl⟩)
          (by rw [hmap]; exact Inv.pending_rids_nodup s hInv)]
        rfl
      rw [h1, h2, List.nil_append]
    · refine Or.inr ⟨rfl, o, ?_, hok⟩
      rw [outcomesFor_eq_outsFor]
      show outsFor (s.log ++ s.pending.map
          (fun e => (e.2, Outcome.processClosed))) r = [o]
      rw [outsFor_append]
      have h2 : outsFor (s.pending.map (fun e => (e.2, Outcome.processClosed))) r
          = [] := by
        apply outsFor_eq_nil
        rw [hmap]
        intro hmem
        obtain ⟨p, hp, hpe⟩ := List.mem_map.mp hmem
        have hps := hInv.pend_sent p hp
        rw [hpe, hr] at hps
        have hpj : p.1 = j := by
          injection hps with hinj
          exact hinj.symm
        have hpmem : (j, r) ∈ s.pending := by
          have : p = (j, r) := by
            cases p with
            | mk a b =>
                simp only at hpj hpe
                rw [hpj, hpe]
          rw [← this]
          exact hp
        rw [mapGet_of_mem_nodup _ _ _ hpmem hInv.keysNodup] at hg
        cases hg
      rw [h2, List.append_nil]
      exact ho
  · exact hInv.sent_lt
  · intro p hp
    rcases List.mem_append.mp hp with h | h
    · exact hInv.log_lt p h
    · obtain ⟨q, hq, rfl⟩ := List.mem_map.mp h
      exact Inv.pending_rid_lt s hInv q hq

theorem inv_onProcError (s : BridgeState) (hInv : Inv s) :
    Inv (onProcError s) :=
  inv_congr s _ hInv rfl rfl rfl rfl rfl

theorem inv_onInitTimer (s : BridgeState) (hInv : Inv s) :
    Inv (onInitTimer s) := by
  unfold onInitTimer
  split
  · exact inv_congr s _ hInv rfl rfl rfl rfl rfl
  · exact hInv

theorem inv_onHandshakeTimer (s : BridgeState) (f : String) (hInv : Inv s) :
    Inv (onHandshakeTimer s f) := by
  unfold onHandshakeTimer
  split
  · exact inv_congr s _ hInv rfl rfl rfl rfl rfl
  · exact hInv

/-- Per-event admissibility for the invariant: writes succeed, and a
send's wire id has never been used before. -/
def eventOk (s : BridgeState) : Event → Prop
  | .send m f w => w = true ∧ requestIdOf m f ∉ s.sentIds.map (fun p => p.2)
  | _ => True

theorem inv_step (s : BridgeState) (e : Event) (hInv : Inv s)
    (hok : eventOk s e) : Inv (step s e) := by
  cases e with
  | stdoutData c => exact inv_onStdout s c hInv
  | stderrData c => exact inv_onStderr s c hInv
  | send m f w =>
      obtain ⟨hw, hfresh⟩ := hok
      subst hw
      by_cases hg : (!s.procExists || !s.mcpReady) = true
      · exact inv_send_gate s m f true hInv hg
      · have hp : s.procExists = true ∧ s.mcpReady = true := by
          constructor <;> revert hg <;>
            cases s.procExists <;> cases s.mcpReady <;> simp
        exact inv_send_reg s m f hInv hp.1 hp.2 hfresh
  | reqTimer t => exact inv_reqTimer s t hInv
  | procClose => exact inv_onClose s hInv
  | procError => exact inv_onProcError s hInv
  | initTimer => exact inv_onInitTimer s hInv
  | handshakeTimer f => exact inv_onHandshakeTimer s f hInv

/-- The wire id a send event will register under, if it is a send. -/
def sendJid : Event → Option Json
  | .send m f _ => some (requestIdOf m f)
  | _ => none

theorem onStdout_sentIds (s : BridgeState) (c : String) :
    (onStdout s c).sentIds = s.sentIds := by
  unfold onStdout
  split
  · split
    · rfl
    · rw [foldlHandleLine_sentIds]
  · exact foldlHandleLine_sentIds _ _

theorem step_sentIds_nonsend (s : BridgeState) (e : Event)
    (h : sendJid e = none) : (step s e).sentIds = s.sentIds := by
  cases e with
  | stdoutData c => exact onStdout_sentIds s c
  | stderrData c =>
      show (onStderr s c).sentIds = s.sentIds
      unfold onStderr
      split <;> rfl
  | send m f w => simp [sendJid] at h
  | reqTimer t =>
      show (onReqTimer s t).sentIds = s.sentIds
      unfold onReqTimer
      split
      · split
        · rfl
        · split <;> rfl
      · rfl
  | procClose => rfl
  | procError => rfl
  | initTimer =>
      show (onInitTimer s).sentIds = s.sentIds
      unfold onInitTimer
      split <;> rfl
  | handshakeTimer f =>
      show (onHandshakeTimer s f).sentIds = s.sentIds
      unfold onHandshakeTimer
      split <;> rfl

theorem sendToMCP_sentIds (s : BridgeState) (m : Json) (f : String) (w : Bool) :
    (sendToMCP s m f w).sentIds = s.sentIds ∨
    (sendToMCP s m f w).sentIds =
      s.sentIds ++ [(s.nextReq, requestIdOf m f)] := by
  unfold sendToMCP
  split
  · exact Or.inl rfl
  · split
    · exact Or.inr rfl
    · exact Or.inr rfl

/-- Running a trace whose send wire ids are pairwise distinct, never
reuse an already-registered id, and whose writes all succeed preserves
the invariant. -/
theorem inv_run (es : List Event) (s : BridgeState) (hInv : Inv s)
    (hnd : ((s.sentIds.map (fun p => p.2)) ++ es.filterMap sendJid).Nodup)
    (hw : ∀ m f w, Event.send m f w ∈ es → w = true) :
    Inv (runEvents s es) := by
  induction es generalizing s with
  | nil => exact hInv
  | cons e es ih =>
      have hok : eventOk s e := by
        cases e with
        | send m f w =>
            refine ⟨hw m f w (List.mem_cons_self _ _), ?_⟩
            intro hmem
            have hnd' : ((s.sentIds.map (fun p => p.2)) ++
                (requestIdOf m f :: es.filterMap sendJid)).Nodup := by
              simpa [List.filterMap_cons, sendJid] using hnd
            obtain ⟨_, _, hdisj⟩ := List.nodup_append.mp hnd'
            exact hdisj hmem (List.mem_cons_self _ _)
        | stdoutData c => trivial
        | stderrData c => trivial
        | reqTimer t => trivial
        | procClose => trivial
        | procError => trivial
        | initTimer => trivial
        | handshakeTimer f => trivial
      refine ih (step s e) (inv_step s e hInv hok) ?_ ?_
      · cases he : sendJid e with
        | none =>
            rw [step_sentIds_nonsend s e he]
            have hfm : (e :: es).filterMap sendJid = es.filterMap sendJid := by
              simp [List.filterMap_cons, he]
            rw [hfm] at hnd
            exact hnd
        | some jid =>
            cases e with
            | send m f w =>
                have hje : jid = requestIdOf m f := by
                  simp [sendJid] at he
                  exact he.symm
                subst hje
                have hnd' : ((s.sentIds.map (fun p => p.2)) ++
                    (requestIdOf m f :: es.filterMap sendJid)).Nodup := by
                  simpa [List.filterMap_cons, sendJid] using hnd
                rcases sendToMCP_sentIds s m f w with hs | hs
                · show (((sendToMCP s m f w).sentIds.map (fun p => p.2)) ++
                      es.filterMap sendJid).Nodup
                  rw [hs]
                  refine List.Nodup.sublist ?_ hnd'
                  exact List.Sublist.append_left
                    (List.sublist_cons_self _ _) _
                · show (((sendToMCP s m f w).sentIds.map (fun p => p.2)) ++
                      es.filterMap sendJid).Nodup
                  rw [hs]
                  have : ((s.sentIds ++ [(s.nextReq, requestIdOf m f)]).map
                        (fun p => p.2)) ++ es.filterMap sendJid =
                      (s.sentIds.map (fun p => p.2)) ++
                        (requestIdOf m f :: es.filterMap sendJid) := by
                    simp
                  rw [this]
                  exact hnd'
            | stdoutData c => simp [sendJid] at he
            | stderrData c => simp [sendJid] at he
            | reqTimer t => simp [sendJid] at he
            | procClose => simp [sendJid] at he
            | procError => simp [sendJid] at he
            | initTimer => simp [sendJid] at he
            | handshakeTimer f => simp [sendJid] at he
      · intro m f w hm
        exact hw m f w (List.mem_cons_of_mem _ hm)

/-- C2 (corrected): provided the wire ids of all sends in the trace are
pairwise distinct and all stdin writes succeed, every request registered
by `sendToMCP` reaches exactly one terminal outcome once its 30 s timer
has fired — and that outcome is a response carrying its own id, the
timeout error, or the process-closed error.  (Without distinct ids the
claim fails: see the counterexample.) -/
theorem C2_registered_request_exactly_one_outcome (es : List Event)
    (r : Nat) (j : Json)
    (hnd : (es.filterMap sendJid).Nodup)
    (hw : ∀ m f w, Event.send m f w ∈ es → w = true)
    (hreg : lookupSent (runEvents spawnedState es).sentIds r = some j) :
    ∃ o, outcomesFor (runEvents spawnedState (es ++ [.reqTimer r])) r = [o] ∧
      okOut j o := by
  have hInv : Inv (runEvents spawnedState es) :=
    inv_run es spawnedState inv_spawned (by simpa [spawnedState] using hnd) hw
  rw [runEvents_append]
  generalize hS : runEvents spawnedState es = S at hInv hreg
  show ∃ o, outcomesFor (runEvents S [.reqTimer r]) r = [o] ∧ okOut j o
  have hstep : runEvents S [.reqTimer r] = onReqTimer S r := rfl
  rw [hstep]
  rcases hInv.reg_state r j hreg with ⟨hget, htim⟩ | ⟨hget, o, ho, hok⟩
  · have hcont : S.timers.contains r = true := by
      simpa [List.contains_eq_any_beq] using htim
    have heq : onReqTimer S r =
        { S with timers := S.timers.filter (fun t => !(t == r))
                 pending := mapDelete S.pending j
                 log := S.log ++ [(r, Outcome.timeoutErr)] } := by
      unfold onReqTimer
      simp only [hcont, hreg, hget, Option.isSome_some, if_true]
    rw [heq]
    refine ⟨Outcome.timeoutErr, ?_, trivial⟩
    rw [outcomesFor_eq_outsFor]
    show outsFor (S.log ++ [(r, Outcome.timeoutErr)]) r = _
    rw [outsFor_append, outsFor_single_eq]
    have hmem : (j, r) ∈ S.pending := mem_of_mapGet_eq_some _ _ _ hget
    have h0 : outsFor S.log r = [] := hInv.pend_unsettled _ hmem
    rw [h0, List.nil_append]
  · by_cases hmem : S.timers.contains r = true
    · have heq : onReqTimer S r =
          { S with timers := S.timers.filter (fun t => !(t == r)) } := by
        unfold onReqTimer
        simp [hmem, hreg, hget]
        intro hnot
        exact absurd (by simpa [List.contains_eq_any_beq] using hmem) hnot
      rw [heq]
      exact ⟨o, ho, hok⟩
    · have heq : onReqTimer S r = S := by
        unfold onReqTimer
        rw [if_neg hmem]
      rw [heq]
      exact ⟨o, ho, hok⟩

/-- A boot trace: the child announces readiness on stderr, then one
request is sent. -/
def c2wTrace : List Event :=
  [.stderrData "MCP server running on stdio", .send msgIdA "f0" true]

theorem C2_witness :
    ∃ o, outcomesFor (runEvents spawnedState
        (c2wTrace ++ [.reqTimer 0])) 0 = [o] ∧ okOut (.str "a") o :=
  C2_registered_request_exactly_one_outcome c2wTrace 0 (.str "a")
    (by decide)
    (by
      intro m f w hm
      cases hm with
      | tail _ hm2 =>
          cases hm2 with
          | head => rfl
          | tail _ hm3 => cases hm3)
    (by rfl)

/-- Request `r` can never again receive any outcome from `s` on. -/
def deadFor (s : BridgeState) (r : Nat) : Prop :=
  ∀ es : List Event, outcomesFor (runEvents s es) r = outcomesFor s r

theorem mapSet_rid_not_mem (m : List (Json × Nat)) (k : Json) (v r : Nat)
    (h1 : r ∉ m.map (fun p => p.2)) (h2 : r ≠ v) :
    r ∉ (mapSet m k v).map (fun p => p.2) := by
  unfold mapSet
  split
  · intro hmem
    rw [List.map_map, List.mem_map] at hmem
    obtain ⟨e, hem, hev⟩ := hmem
    simp only [Function.comp] at hev
    by_cases hek : e.1 = k
    · rw [if_pos (by simp [hek])] at hev
      exact h2 hev.symm
    · rw [if_neg (by simpa using hek)] at hev
      exact h1 (List.mem_map.mpr ⟨e, hem, hev⟩)
  · intro hmem
    rw [List.map_append, List.mem_append] at hmem
    rcases hmem with h | h
    · exact h1 h
    · have : r = v := by simpa using h
      exact h2 this

theorem handleLine_dead (s : BridgeState) (l : String) (r : Nat)
    (h1 : r ∉ s.pending.map (fun p => p.2)) :
    outcomesFor (handleLine s l) r = outcomesFor s r ∧
    r ∉ (handleLine s l).pending.map (fun p => p.2) ∧
    (handleLine s l).timers = s.timers ∧
    (handleLine s l).nextReq = s.nextReq := by
  rcases handleLine_cases s l with h | ⟨resp, idv, r1, hid, hm, h⟩
  · rw [h]
    exact ⟨rfl, h1, rfl, rfl⟩
  · rw [h]
    have hr1 : r1 ≠ r := fun he => h1 (he ▸ List.mem_map.mpr
      ⟨(idv, r1), mem_of_mapGet_eq_some _ _ _ hm, rfl⟩)
    refine ⟨?_, ?_, rfl, rfl⟩
    · rw [outcomesFor_eq_outsFor]
      show outsFor (s.log ++ [(r1, Outcome.response resp)]) r = _
      rw [outsFor_append, outsFor_single_ne _ _ hr1, List.append_nil]
      rfl
    · intro hmem
      refine h1 ?_
      exact (List.Sublist.map (fun p => p.2)
        (List.filter_sublist s.pending)).subset hmem

theorem foldl_dead (ls : List String) (s : BridgeState) (r : Nat)
    (h1 : r ∉ s.pending.map (fun p => p.2)) :
    outcomesFor (ls.foldl handleLine s) r = outcomesFor s r ∧
    r ∉ (ls.foldl handleLine s).pending.map (fun p => p.2) ∧
    (ls.foldl handleLine s).timers = s.timers ∧
    (ls.foldl handleLine s).nextReq = s.nextReq := by
  induction ls generalizing s with
  | nil => exact ⟨rfl, h1, rfl, rfl⟩
  | cons l ls ih =>
      obtain ⟨ho, hp, ht, hn⟩ := handleLine_dead s l r h1
      obtain ⟨ho2, hp2, ht2, hn2⟩ := ih (handleLine s l) hp
      exact ⟨ho2.trans ho, hp2, ht2.trans ht, hn2.trans hn⟩

theorem step_dead (s : BridgeState) (e : Event) (r : Nat)
    (h1 : r ∉ s.pending.map (fun p => p.2))
    (h2 : r ∉ s.timers) (h3 : r < s.nextReq) :
    outcomesFor (step s e) r = outcomesFor s r ∧
    r ∉ (step s e).pending.map (fun p => p.2) ∧
    r ∉ (step s e).timers ∧ r < (step s e).nextReq := by
  cases e with
  | stdoutData c =>
      simp only [step]
      unfold onStdout
      split
      · split
        · exact ⟨rfl, h1, h2, h3⟩
        · obtain ⟨ho, hp, ht, hn⟩ := foldl_dead (linesOf c)
            { s with initBuffer := s.initBuffer ++ c } r h1
          refine ⟨ho, hp, ?_, ?_⟩
          · rw [ht]; exact h2
          · rw [hn]; exact h3
      · obtain ⟨ho, hp, ht, hn⟩ := foldl_dead (linesOf c) s r h1
        refine ⟨ho, hp, ?_, ?_⟩
        · rw [ht]; exact h2
        · rw [hn]; exact h3
  | stderrData c =>
      simp only [step]
      unfold onStderr
      split
      · exact ⟨rfl, h1, h2, h3⟩
      · exact ⟨rfl, h1, h2, h3⟩
  | send m f w =>
      simp only [step]
      unfold sendToMCP
      split
      · refine ⟨?_, h1, h2, by show r < s.nextReq + 1; omega⟩
        rw [outcomesFor_eq_outsFor]
        show outsFor (s.log ++ [(s.nextReq, Outcome.notReady)]) r = _
        rw [outsFor_append, outsFor_single_ne _ _ (by simp; omega),
          List.append_nil]
        rfl
      · have hpend : r ∉ (mapSet s.pending (requestIdOf m f)
            s.nextReq).map (fun p => p.2) :=
          mapSet_rid_not_mem _ _ _ _ h1 (by omega)
        have htim : r ∉ s.timers ++ [s.nextReq] := by
          intro hmem
          rcases List.mem_append.mp hmem with h | h
          · exact h2 h
          · have : r = s.nextReq := by simpa using h
            omega
        split
        · exact ⟨rfl, hpend, htim, by show r < s.nextReq + 1; omega⟩
        · refine ⟨?_, ?_, htim, by show r < s.nextReq + 1; omega⟩
          · rw [outcomesFor_eq_outsFor]
            show outsFor (s.log ++ [(s.nextReq, Outcome.writeFailed)]) r = _
            rw [outsFor_append, outsFor_single_ne _ _ (by simp; omega),
              List.append_nil]
            rfl
          · intro hmem
            have hmem2 : r ∈ (mapDelete (mapSet s.pending (requestIdOf m f)
                s.nextReq) (requestIdOf m f)).map (fun p => p.2) := hmem
            refine hpend ?_
            exact (List.Sublist.map (fun p => p.2)
              (List.filter_sublist (mapSet s.pending (requestIdOf m f)
                s.nextReq))).subset hmem2
  | reqTimer t =>
      simp only [step]
      have htne : s.timers.contains t = true → t ≠ r := by
        intro hc he
        subst he
        refine h2 ?_
        simpa [List.contains_eq_any_beq] using hc
      have hfilt : r ∉ s.timers.filter (fun x => !(x == t)) := by
        intro hmem
        exact h2 (List.mem_of_mem_filter hmem)
      unfold onReqTimer
      split
      · rename_i hc
        split
        · exact ⟨rfl, h1, hfilt, h3⟩
        · rename_i jid hl
          split
          · refine ⟨?_, ?_, hfilt, h3⟩
            · rw [outcomesFor_eq_outsFor]
              show outsFor (s.log ++ [(t, Outcome.timeoutErr)]) r = _
              rw [outsFor_append,
                outsFor_single_ne _ _ (htne hc), List.append_nil]
              rfl
            · intro hmem
              have hmem2 : r ∈ (mapDelete s.pending jid).map
                  (fun p => p.2) := hmem
              refine h1 ?_
              exact (List.Sublist.map (fun p => p.2)
                (List.filter_sublist s.pending)).subset hmem2
          · exact ⟨rfl, h1, hfilt, h3⟩
      · exact ⟨rfl, h1, h2, h3⟩
  | procClose =>
      simp only [step]
      refine ⟨?_, by simp [onClose], h2, h3⟩
      rw [outcomesFor_eq_outsFor]
      show outsFor (s.log ++ s.pending.map
          (fun e => (e.2, Outcome.processClosed))) r = _
      rw [outsFor_append]
      have hnil : outsFor (s.pending.map
          (fun e => (e.2, Outcome.processClosed))) r = [] := by
        apply outsFor_eq_nil
        intro hmem
        refine h1 ?_
        rw [List.map_map] at hmem
        simpa [Function.comp] using hmem
      rw [hnil, List.append_nil]
      rfl
  | procError => exact ⟨rfl, h1, h2, h3⟩
  | initTimer =>
      simp only [step]
      unfold onInitTimer
      split
      · exact ⟨rfl, h1, h2, h3⟩
      · exact ⟨rfl, h1, h2, h3⟩
  | handshakeTimer f =>
      simp only [step]
      unfold onHandshakeTimer
      split
      · exact ⟨rfl, h1, h2, h3⟩
      · exact ⟨rfl, h1, h2, h3⟩

/-- Once a request is gone from the map and its timer has fired, no
future event can ever deliver an outcome to it. -/
theorem dead_of (s : BridgeState) (r : Nat)
    (h1 : r ∉ s.pending.map (fun p => p.2)) (h2 : r ∉ s.timers)
    (h3 : r < s.nextReq) : deadFor s r := by
  intro es
  induction es generalizing s with
  | nil => rfl
  | cons e es ih =>
      obtain ⟨ho, hp, ht, hn⟩ := step_dead s e r h1 h2 h3
      exact (ih (step s e) hp ht hn).trans ho

/-- The response for the duplicated id `"a"`. -/
def respAChunk : String := "\x7b\"jsonrpc\":\"2.0\",\"id\":\"a\",\"result\":5\x7d\n"

/-- Two sends reuse id `"a"`; the response arrives (resolving the second
request), then both timers fire as no-ops. -/
def c2Final : BridgeState :=
  runEvents readyBridge
    [.send msgIdA "f0" true, .send msgIdA "f1" true,
     .stdoutData respAChunk, .reqTimer 0, .reqTimer 1]

/-- C2 counterexample: request 0 was registered with a (truthy) id, the
whole trace has completed — both timers fired, the map is empty — yet
request 0's promise received zero terminal outcomes, and `deadFor` shows
no continuation of the trace can ever deliver one: the second
registration under the same id overwrote its completion handle. -/
theorem C2_counterexample :
    registered c2Final 0 = true ∧
    c2Final.timers = [] ∧
    c2Final.pending = [] ∧
    outcomesFor c2Final 0 = [] ∧
    deadFor c2Final 0 := by
  refine ⟨rfl, rfl, rfl, rfl, dead_of _ _ ?_ ?_ ?_⟩ <;> decide

end Bridge
